import Mathlib

/-! ort-operator-api: translation, log location and chat command dispatch

A shallow embedding of the Go sources `messages.go`, `k8s.go`, `handlers.go`,
`matrix.go` and `bot_common.go`.

Modelling conventions.

* Go strings are modelled by Lean `String` (sequences of Unicode scalar values,
  i.e. well-formed UTF-8 text).  On such text the byte-level library functions
  used by the program (`strings.HasPrefix`, `strings.CutPrefix`,
  `strings.CutSuffix`, `strings.Cut`, `strings.TrimSpace`, `==`, `fmt.Sprintf`
  with `%s` verbs) coincide with the character-level definitions given here.
* `interface{}` values coming from the cluster are the JSON-shaped values of
  `Value`; a `map[string]interface{}` is an association list read by first match.
* A Go function returning `(T, error)` returns a `Result T`: a value, a value
  together with an error, or a run-time panic (a failed unchecked type
  assertion).
* External collaborators (the cluster API, the YAML and JSON encoders, the name
  generator) are parameters.  Logging is not modelled.
-/

set_option linter.dupNamespace false

namespace OrtOperator

/-! ## Go runtime values -/

/-- The Go `error` interface, reduced to its message. -/
abbrev GoError := String

/-- The Go type `string`, under this name where `String` names a method. -/
abbrev GoString := String

/-- The outcome of a Go call of type `(T, error)`, or a panic. -/
inductive Result (α : Type) where
  | ok (v : α)
  | err (v : α) (e : GoError)
  | panic
  deriving DecidableEq, Repr

/-- A dynamically typed value held in an `interface{}` of an unstructured object. -/
inductive Value where
  | null
  | bool (b : Bool)
  | int (n : Int)
  | float (bits : Nat)
  | str (s : String)
  | list (xs : List Value)
  | map (kvs : List (String × Value))

/-- The Go type `map[string]interface{}`. -/
abbrev Object := List (String × Value)

/-- The map read `m[k]`: the stored value, or the nil interface when `k` is absent. -/
def Object.index (m : Object) (k : String) : Value :=
  (m.lookup k).getD Value.null

/-- The type assertion `v.(map[string]interface{})` in its comma-ok form. -/
def Value.asMap? : Value → Option Object
  | Value.map kvs => some kvs
  | _ => none

/-- The type assertion `v.(string)` in its comma-ok form. -/
def Value.asString? : Value → Option String
  | Value.str s => some s
  | _ => none

/-! ## Package `strings` -/

namespace strings

/-- The library function `strings.HasPrefix`:
`len(s) >= len(p) && s[:len(p)] == p`. -/
def HasPrefix (s p : String) : Bool :=
  decide (p.data.length ≤ s.data.length) && (s.data.take p.data.length == p.data)

/-- The library function `strings.HasSuffix`:
`len(s) >= len(p) && s[len(s)-len(p):] == p`. -/
def HasSuffix (s p : String) : Bool :=
  decide (p.data.length ≤ s.data.length) &&
    (s.data.drop (s.data.length - p.data.length) == p.data)

/-- The library function `strings.CutPrefix`. -/
def CutPrefix (s p : String) : String × Bool :=
  if HasPrefix s p then (String.mk (s.data.drop p.data.length), true) else (s, false)

/-- The library function `strings.CutSuffix`. -/
def CutSuffix (s p : String) : String × Bool :=
  if HasSuffix s p then (String.mk (s.data.take (s.data.length - p.data.length)), true)
  else (s, false)

/-- The library function `strings.Index` on character lists: the least `i` with
`sep` a prefix of `s[i:]`. -/
def indexOf (sep : List Char) : List Char → Option Nat
  | [] => if sep = [] then some 0 else none
  | c :: cs =>
    if sep.isPrefixOf (c :: cs) then some 0
    else (indexOf sep cs).map (· + 1)

/-- The library function `strings.Cut`: split around the first instance of `sep`. -/
def Cut (s sep : String) : String × String × Bool :=
  match indexOf sep.data s.data with
  | some i => (String.mk (s.data.take i), String.mk (s.data.drop (i + sep.data.length)), true)
  | none => (s, "", false)

/-- The library predicate `unicode.IsSpace` (Unicode White_Space property). -/
def isSpace (c : Char) : Bool :=
  let n := c.toNat
  n == 0x09 || n == 0x0A || n == 0x0B || n == 0x0C || n == 0x0D || n == 0x20 ||
  n == 0x85 || n == 0xA0 || n == 0x1680 || (0x2000 ≤ n && n ≤ 0x200A) ||
  n == 0x2028 || n == 0x2029 || n == 0x202F || n == 0x205F || n == 0x3000

/-- The library function `strings.TrimSpace`: remove all leading and trailing
white space. -/
def TrimSpace (s : String) : String :=
  String.mk ((s.data.dropWhile isSpace).reverse.dropWhile isSpace).reverse

end strings

/-! ## messages.go -/

/-- The Go type `StageStatus int`. -/
structure StageStatus where
  code : Int
  deriving DecidableEq, Repr

def Pending : StageStatus := ⟨0⟩
def Running : StageStatus := ⟨1⟩
def Succeeded : StageStatus := ⟨2⟩
def Failed : StageStatus := ⟨3⟩
def Aborted : StageStatus := ⟨4⟩

structure RunStatus where
  Analyzer : StageStatus
  Scanner : StageStatus
  Reporter : StageStatus
  deriving DecidableEq, Repr

structure OrtRun where
  Name : String
  RepoUrl : String
  Status : RunStatus
  KubernetesResource : String
  deriving DecidableEq, Repr

structure OrtRunList where
  Runs : List OrtRun
  deriving DecidableEq, Repr

structure PodLogs where
  PodName : String
  PodLogs : String
  deriving DecidableEq, Repr

structure OrtLogs where
  RunName : String
  RunStage : String
  PodLogs : List PodLogs
  deriving DecidableEq, Repr

/-- The method `StageStatus.String`. -/
def StageStatus.String (s : StageStatus) : String :=
  if s = Pending then "Pending"
  else if s = Running then "Running"
  else if s = Succeeded then "Succeeded"
  else if s = Failed then "Failed"
  else if s = Aborted then "Aborted"
  else "Unknown"

/-- The method `StageStatus.MarshalJSON`; `jsonMarshal` stands for `json.Marshal`
applied to a string. -/
def StageStatus.MarshalJSON (jsonMarshal : GoString → Except GoError GoString)
    (s : StageStatus) : Except GoError GoString :=
  jsonMarshal s.String

/-- The function `stageStatusFromString`. -/
def stageStatusFromString (s : String) : StageStatus :=
  if s = "Running" then Running
  else if s = "Succeeded" then Succeeded
  else if s = "Failed" then Failed
  else if s = "Aborted" then Aborted
  else Pending

/-- The function `runStatusFromUnstructured`. -/
def runStatusFromUnstructured (resource : Object) : RunStatus :=
  let result : RunStatus := ⟨Pending, Pending, Pending⟩
  match (resource.index "status").asMap? with
  | none => result
  | some statuses =>
    let result :=
      match (statuses.index "analyzer").asString? with
      | some s => { result with Analyzer := stageStatusFromString s }
      | none => result
    let result :=
      match (statuses.index "scanner").asString? with
      | some s => { result with Scanner := stageStatusFromString s }
      | none => result
    let result :=
      match (statuses.index "reporter").asString? with
      | some s => { result with Reporter := stageStatusFromString s }
      | none => result
    result

/-- The function `unstructuredToOrtRun`.  The four unchecked type assertions
that build `Name` and `RepoUrl` panic when they fail; `yamlMarshal` stands for
`yaml.Marshal`. -/
def unstructuredToOrtRun (yamlMarshal : Object → Except GoError String)
    (resource : Object) (withYaml : Bool) : Result OrtRun :=
  match (resource.index "metadata").asMap? with
  | none => Result.panic
  | some metadata =>
    match (metadata.index "name").asString? with
    | none => Result.panic
    | some name =>
      match (resource.index "spec").asMap? with
      | none => Result.panic
      | some spec =>
        match (spec.index "repoUrl").asString? with
        | none => Result.panic
        | some repoUrl =>
          let run : OrtRun :=
            { Name := name, RepoUrl := repoUrl,
              Status := runStatusFromUnstructured resource, KubernetesResource := "" }
          if withYaml then
            match yamlMarshal resource with
            | Except.error e => Result.err run e
            | Except.ok objYaml => Result.ok { run with KubernetesResource := objYaml }
          else Result.ok run

/-- The loop of `unstructuredListToOrtRunList`, with `runs` the slice built so far. -/
def unstructuredListToOrtRunList.loop (yamlMarshal : Object → Except GoError String) :
    List Object → List OrtRun → Result OrtRunList
  | [], runs => Result.ok ⟨runs⟩
  | item :: rest, runs =>
    match unstructuredToOrtRun yamlMarshal item false with
    | Result.panic => Result.panic
    | Result.err _ e => Result.err ⟨[]⟩ e
    | Result.ok run => unstructuredListToOrtRunList.loop yamlMarshal rest (runs ++ [run])

/-- The function `unstructuredListToOrtRunList`. -/
def unstructuredListToOrtRunList (yamlMarshal : Object → Except GoError String)
    (items : List Object) : Result OrtRunList :=
  unstructuredListToOrtRunList.loop yamlMarshal items []

/-! ## k8s.go -/

/-- The constant `namespace` of `k8s.go`. -/
def k8sNamespace : String := "ort"

/-- The part of `v1.Pod` the program reads (its name), with the pod's UID standing
for the rest of the object. -/
structure Pod where
  Name : String
  UID : String
  deriving DecidableEq, Repr

/-- The cluster behind an `ortController`: what its two clients answer.
`autoname` is the name `autoname.Generate("-")` produces, `create`, `list` and
`get` are the dynamic client's calls on the `ortruns` resource in the namespace,
`pods` is the pod listing and `logs` the raw log request of a pod. -/
structure ortController where
  autoname : String
  create : Object → Except GoError Object
  list : Except GoError (List Object)
  get : String → Except GoError Object
  pods : Except GoError (List Pod)
  logs : String → Except GoError String

/-- The method `ortController.listRuns`. -/
def ortController.listRuns (oc : ortController) : Except GoError (List Object) :=
  oc.list

/-- The method `ortController.getRun`. -/
def ortController.getRun (oc : ortController) (name : String) : Except GoError Object :=
  oc.get name

/-- The object `ortController.createRun` asks the cluster to create. -/
def ortController.newRun (name repoUrl : String) : Object :=
  [("apiVersion", Value.str "inocybe.io/v1"),
   ("kind", Value.str "OrtRun"),
   ("metadata", Value.map [("namespace", Value.str k8sNamespace), ("name", Value.str name)]),
   ("spec", Value.map [("repoUrl", Value.str repoUrl)])]

/-- The method `ortController.createRun`. -/
def ortController.createRun (oc : ortController) (repoUrl : String) : Except GoError Object :=
  let name := oc.autoname
  let run := ortController.newRun name repoUrl
  oc.create run

/-- The filtering loop of `ortController.listPods`, with `jobPods` the slice
built so far. -/
def ortController.listPods.loop (pfx : String) : List Pod → List Pod → List Pod
  | [], jobPods => jobPods
  | pod :: rest, jobPods =>
    if strings.HasPrefix pod.Name pfx then
      ortController.listPods.loop pfx rest (jobPods ++ [pod])
    else
      ortController.listPods.loop pfx rest jobPods

/-- The method `ortController.listPods`. -/
def ortController.listPods (oc : ortController) (name stage : String) : Result (List Pod) :=
  match oc.pods with
  | Except.error e => Result.err [] e
  | Except.ok items =>
    let pfx := stage ++ "-" ++ name
    let jobPods : List Pod := []
    Result.ok (ortController.listPods.loop pfx items jobPods)

/-- The method `ortController.getLogs`. -/
def ortController.getLogs (oc : ortController) (podName : String) : Result String :=
  match oc.logs podName with
  | Except.error e => Result.err "" e
  | Except.ok logs => Result.ok logs

/-! ## Observable behaviour -/

/-- A call the front-ends make: on the `ortController` or on the Matrix client. -/
inductive Effect where
  | createRun (repoUrl : String)
  | listRuns
  | getRun (name : String)
  | listPods (name stage : String)
  | getLogs (podName : String)
  | SendText (roomID message : String)
  | SendFormattedText (roomID text html : String)
  deriving DecidableEq, Repr

/-- Whether the effect is one of the run operations create, list, get. -/
def Effect.isRunOperation : Effect → Bool
  | Effect.createRun _ => true
  | Effect.listRuns => true
  | Effect.getRun _ => true
  | _ => false

/-! ## handlers.go -/

/-- The part of `http.Request` the handlers read. -/
structure Request where
  Method : String
  Path : String

/-- What a handler writes to the `http.ResponseWriter`: the status code, the
`Access-Control-Allow-Methods` header (`Access-Control-Allow-Origin` is always
`*`), the `Content-Type` header if set, and the value JSON-encoded as body. -/
structure Response where
  status : Nat
  allowedMethods : String
  contentType : Option String
  body : Option OrtLogs
  deriving DecidableEq, Repr

/-- The function `writeStatus`. -/
def writeStatus (status : Nat) (allowedMethods : String) : Response :=
  { status := status, allowedMethods := allowedMethods, contentType := none, body := none }

/-- The function `handleCorsRequest`. -/
def handleCorsRequest (allowedMethods : String) : Response :=
  writeStatus 204 allowedMethods

/-- The outcome of a handler: the calls it made, and its response (`none` when
the handler panicked before writing one). -/
structure Handled where
  calls : List Effect
  response : Option Response
  deriving DecidableEq, Repr

/-- The log-fetching loop of `handleLogs`, with `podLogs` the slice built so far
and `calls` the calls made so far.  It ends with the complete slice, or at the
first fetch that does not succeed. -/
def handleLogs.loop (oc : ortController) :
    List Pod → List PodLogs → List Effect → List Effect × Result (List PodLogs)
  | [], podLogs, calls => (calls, Result.ok podLogs)
  | pod :: rest, podLogs, calls =>
    match oc.getLogs pod.Name with
    | Result.panic => (calls ++ [Effect.getLogs pod.Name], Result.panic)
    | Result.err _ e => (calls ++ [Effect.getLogs pod.Name], Result.err podLogs e)
    | Result.ok logs =>
      handleLogs.loop oc rest (podLogs ++ [{ PodName := pod.Name, PodLogs := logs }])
        (calls ++ [Effect.getLogs pod.Name])

/-- The function `handleLogs`; `newOrtController` is the outcome of building the
controller from the process configuration. -/
def handleLogs (newOrtController : Except GoError ortController) (r : Request) : Handled :=
  if r.Method = "OPTIONS" then ⟨[], some (handleCorsRequest "GET")⟩
  else if r.Method ≠ "GET" then ⟨[], some (writeStatus 405 "GET")⟩
  else
    match strings.CutPrefix r.Path "/logs/" with
    | (_, false) => ⟨[], some (writeStatus 400 "GET")⟩
    | (path, true) =>
      match strings.Cut path "/" with
      | (_, _, false) => ⟨[], some (writeStatus 400 "GET")⟩
      | (name, stage, true) =>
        match newOrtController with
        | Except.error _ => ⟨[], some (writeStatus 500 "GET")⟩
        | Except.ok oc =>
          match oc.listPods name stage with
          | Result.panic => ⟨[Effect.listPods name stage], none⟩
          | Result.err _ _ => ⟨[Effect.listPods name stage], some (writeStatus 500 "GET")⟩
          | Result.ok pods =>
            match handleLogs.loop oc pods [] [Effect.listPods name stage] with
            | (calls, Result.panic) => ⟨calls, none⟩
            | (calls, Result.err _ _) => ⟨calls, some (writeStatus 500 "GET")⟩
            | (calls, Result.ok podLogs) =>
              let ortLogs : OrtLogs := { RunName := name, RunStage := stage, PodLogs := podLogs }
              ⟨calls, some { status := 200, allowedMethods := "GET",
                             contentType := some "application/json", body := some ortLogs }⟩

/-! ## Package `unstructured` -/

namespace unstructured

/-- The entries of a Go map held as an association list: the first entry of
each key. -/
def entries : Object → Object
  | [] => []
  | (k, v) :: rest => (k, v) :: (entries rest).filter (fun kv => kv.1 ≠ k)

/-- The loop of the library function `unstructured.NestedFieldNoCopy`. -/
def NestedFieldNoCopy.loop : Value → List String → Value × Bool × Option GoError
  | val, [] => (val, true, none)
  | Value.null, _ :: _ => (Value.null, false, none)
  | Value.map m, field :: rest =>
    match m.lookup field with
    | none => (Value.null, false, none)
    | some val => NestedFieldNoCopy.loop val rest
  | _, _ :: _ => (Value.null, false, some "accessor error")

/-- The library function `unstructured.NestedFieldNoCopy`. -/
def NestedFieldNoCopy (obj : Object) (fields : List String) : Value × Bool × Option GoError :=
  NestedFieldNoCopy.loop (Value.map obj) fields

/-- The library function `unstructured.NestedMap` (the deep copy it makes is the
identity on values). -/
def NestedMap (obj : Object) (fields : List String) : Object × Bool × Option GoError :=
  match NestedFieldNoCopy obj fields with
  | (_, false, e) => ([], false, e)
  | (_, true, some e) => ([], true, some e)
  | (val, true, none) =>
    match val.asMap? with
    | none => ([], false, some "accessor error")
    | some m => (m, true, none)

/-- The library function `unstructured.NestedStringMap`. -/
def NestedStringMap (obj : Object) (fields : List String) :
    List (String × String) × Bool × Option GoError :=
  match NestedMap obj fields with
  | (_, false, e) => ([], false, e)
  | (_, true, some e) => ([], true, some e)
  | (m, true, none) =>
    if (entries m).all (fun kv => kv.2.asString?.isSome) then
      ((entries m).filterMap (fun kv => kv.2.asString?.map (fun s => (kv.1, s))), true, none)
    else ([], false, some "accessor error")

end unstructured

/-! ## bot_common.go -/

def chatbotHelpText : String :=
  "\ncreate <repoURL> - Create an OrtRun resource with repoURL\nlist - List all OrtRun resources\nshow <name> - Show the nitty gritty of an OrtRun"

def runTableHeaders : List String :=
  ["Name", "Scanned Repository", "Analyzer Status", "Scanner Status", "Reporter Status",
   "Report URL"]

structure ortRunMeta where
  name : String
  repoUrl : String
  analyzerStatus : String
  scannerStatus : String
  reporterStatus : String
  deriving DecidableEq, Repr

/-- The read `m[k]` of a Go `map[string]string`. -/
def stringMapIndex (m : List (String × String)) (k : String) : String :=
  (m.lookup k).getD ""

/-- The closure `parseRunList` passes to `EachListItem`, applied to one item with
`parsedRuns` the slice built so far: the slice afterwards, or a panic.  (The
closure always returns a nil error.) -/
def parseRunList.item (item : Object) (parsedRuns : List ortRunMeta) :
    Result (List ortRunMeta) :=
  match unstructured.NestedStringMap item ["status"] with
  | (_, false, _) => Result.ok parsedRuns
  | (_, true, some _) => Result.ok parsedRuns
  | (status, true, none) =>
    match unstructured.NestedMap item ["metadata"] with
    | (_, false, _) => Result.ok parsedRuns
    | (_, true, some _) => Result.ok parsedRuns
    | (metadata, true, none) =>
      match unstructured.NestedStringMap item ["spec"] with
      | (_, false, _) => Result.ok parsedRuns
      | (_, true, some _) => Result.ok parsedRuns
      | (spec, true, none) =>
        match (metadata.index "name").asString? with
        | none => Result.panic
        | some name =>
          let pr : ortRunMeta :=
            { name := name,
              repoUrl := stringMapIndex spec "repoUrl",
              analyzerStatus := stringMapIndex status "analyzer",
              scannerStatus := stringMapIndex status "scanner",
              reporterStatus := stringMapIndex status "reporter" }
          Result.ok (parsedRuns ++ [pr])

/-- The iteration `EachListItem` makes for `parseRunList`. -/
def parseRunList.loop : List Object → List ortRunMeta → Result (List ortRunMeta)
  | [], parsedRuns => Result.ok parsedRuns
  | item :: rest, parsedRuns =>
    match parseRunList.item item parsedRuns with
    | Result.ok parsedRuns => parseRunList.loop rest parsedRuns
    | Result.err v e => Result.err v e
    | Result.panic => Result.panic

/-- The function `parseRunList`. -/
def parseRunList (runs : List Object) : Result (List ortRunMeta) :=
  parseRunList.loop runs []

/-- The table row `runListToHtml` writes for one run. -/
def runListToHtml.row (run : ortRunMeta) : String :=
  let repoUrl := "<a href=\"" ++ run.repoUrl ++ "\">" ++ run.repoUrl ++ "</a>"
  let reportUrl := "https://ortruns.inocybe.io/" ++ run.name
  let reportUrl := "<a href=\"" ++ reportUrl ++ "\">" ++ reportUrl ++ "</a>"
  "<tr>" ++
    ("<td>" ++ run.name ++ "</td>") ++
    ("<td>" ++ repoUrl ++ "</td>") ++
    ("<td>" ++ run.analyzerStatus ++ "</td>") ++
    ("<td>" ++ run.scannerStatus ++ "</td>") ++
    ("<td>" ++ run.reporterStatus ++ "</td>") ++
    ("<td>" ++ reportUrl ++ "</td>") ++
  "</tr>"

/-- The function `runListToHtml`. -/
def runListToHtml (unstructuredRuns : List Object) : Result String :=
  match parseRunList unstructuredRuns with
  | Result.panic => Result.panic
  | Result.err _ e => Result.err "" e
  | Result.ok runs =>
    let sb := "<table>" ++ "<tr>"
    let sb := runTableHeaders.foldl (fun sb header => sb ++ ("<th>" ++ header ++ "</th>")) sb
    let sb := sb ++ "</tr>"
    let sb := runs.foldl (fun sb run => sb ++ runListToHtml.row run) sb
    let sb := sb ++ "</table>"
    Result.ok sb

/-! ## matrix.go -/

/-- The bot: its controller, and the `UserID` and homeserver host of its
Matrix client. -/
structure matrixBot where
  oc : ortController
  UserID : String
  Host : String

/-- The part of `gomatrix.Event` the bot reads; `Body` is the result of
`ev.Body()`, `none` when the event has no text body. -/
structure Event where
  Body : Option String
  Sender : String
  RoomID : String

/-- What the bot did with an event: the calls it made, and whether it panicked. -/
structure Dispatched where
  calls : List Effect
  panicked : Bool
  deriving DecidableEq, Repr

/-- The method `matrixBot.sendCommandResponse`. -/
def matrixBot.sendCommandResponse (ev : Event) (message : String) : List Effect :=
  let message := ev.Sender ++ " " ++ message
  [Effect.SendText ev.RoomID message]

/-- The method `matrixBot.handleCreateCommand`; `marshalIndent` stands for
`json.MarshalIndent` with its fixed indentation arguments. -/
def matrixBot.handleCreateCommand (marshalIndent : Object → Except GoError String)
    (mb : matrixBot) (ev : Event) (repoUrl : String) : Dispatched :=
  match mb.oc.createRun repoUrl with
  | Except.error err =>
    ⟨Effect.createRun repoUrl :: matrixBot.sendCommandResponse ev err, false⟩
  | Except.ok run =>
    match marshalIndent run with
    | Except.error err =>
      ⟨Effect.createRun repoUrl :: matrixBot.sendCommandResponse ev err, false⟩
    | Except.ok data =>
      ⟨Effect.createRun repoUrl :: matrixBot.sendCommandResponse ev data, false⟩

/-- The method `matrixBot.handleListCommand`. -/
def matrixBot.handleListCommand (mb : matrixBot) (ev : Event) : Dispatched :=
  match mb.oc.listRuns with
  | Except.error err => ⟨Effect.listRuns :: matrixBot.sendCommandResponse ev err, false⟩
  | Except.ok runs =>
    match runListToHtml runs with
    | Result.panic => ⟨[Effect.listRuns], true⟩
    | Result.err _ err => ⟨Effect.listRuns :: matrixBot.sendCommandResponse ev err, false⟩
    | Result.ok html =>
      let html := ev.Sender ++ " " ++ html
      ⟨[Effect.listRuns, Effect.SendFormattedText ev.RoomID "" html], false⟩

/-- The method `matrixBot.handleShowCommand`. -/
def matrixBot.handleShowCommand (marshalIndent : Object → Except GoError String)
    (mb : matrixBot) (ev : Event) (name : String) : Dispatched :=
  match mb.oc.getRun name with
  | Except.error err => ⟨Effect.getRun name :: matrixBot.sendCommandResponse ev err, false⟩
  | Except.ok run =>
    match marshalIndent run with
    | Except.error err => ⟨Effect.getRun name :: matrixBot.sendCommandResponse ev err, false⟩
    | Except.ok data => ⟨Effect.getRun name :: matrixBot.sendCommandResponse ev data, false⟩

/-- The method `matrixBot.handleCommand`. -/
def matrixBot.handleCommand (marshalIndent : Object → Except GoError String)
    (mb : matrixBot) (ev : Event) (command arguments : String) : Dispatched :=
  if command = "help" then ⟨matrixBot.sendCommandResponse ev chatbotHelpText, false⟩
  else if command = "create" then matrixBot.handleCreateCommand marshalIndent mb ev arguments
  else if command = "list" then matrixBot.handleListCommand mb ev
  else if command = "show" then matrixBot.handleShowCommand marshalIndent mb ev arguments
  else
    let message :=
      "unknown command '" ++ command ++ "'. Use 'help' to list all available commands"
    ⟨matrixBot.sendCommandResponse ev message, false⟩

/-- The method `matrixBot.handleMessage`. -/
def matrixBot.handleMessage (marshalIndent : Object → Except GoError String)
    (mb : matrixBot) (ev : Event) : Dispatched :=
  match ev.Body with
  | none => ⟨[], false⟩
  | some body =>
    let suffix := ":" ++ mb.Host
    let shortUid := (strings.CutSuffix mb.UserID suffix).1
    match strings.CutPrefix body shortUid with
    | (_, false) => ⟨[], false⟩
    | (body, true) =>
      let body := strings.TrimSpace body
      match strings.Cut body " " with
      | (cmd, args, _) =>
        let cmd := strings.TrimSpace cmd
        let args := strings.TrimSpace args
        matrixBot.handleCommand marshalIndent mb ev cmd args

/-! ## Vocabulary of the properties -/

/-- The object has a map at `sect` whose entry `key` is the string `s`
(as in `metadata.name` or `spec.repoUrl`). -/
def fieldIs (resource : Object) (sect key : String) (s : String) : Prop :=
  ∃ m, resource.lookup sect = some (Value.map m) ∧ m.lookup key = some (Value.str s)

/-- What is required of the status `stage` computed for the stage key `key` of
`resource`: the matching status for the five names, `Pending` in every other
case. -/
def StageRule (resource : Object) (key : String) (stage : StageStatus) : Prop :=
  (∀ statuses s, resource.lookup "status" = some (Value.map statuses) →
      statuses.lookup key = some (Value.str s) →
      (s = "Running" → stage = Running) ∧ (s = "Succeeded" → stage = Succeeded) ∧
      (s = "Failed" → stage = Failed) ∧ (s = "Aborted" → stage = Aborted) ∧
      (s = "Pending" → stage = Pending) ∧
      (s ∉ ["Running", "Succeeded", "Failed", "Aborted", "Pending"] → stage = Pending)) ∧
  (∀ statuses v, resource.lookup "status" = some (Value.map statuses) →
      statuses.lookup key = some v → v.asString? = none → stage = Pending) ∧
  (∀ statuses, resource.lookup "status" = some (Value.map statuses) →
      statuses.lookup key = none → stage = Pending) ∧
  (resource.lookup "status" = none → stage = Pending) ∧
  (∀ v, resource.lookup "status" = some v → v.asMap? = none → stage = Pending)

/-- The status `runStatusFromUnstructured` computes for one stage key, taken on
its own. -/
def stageAt (resource : Object) (key : String) : StageStatus :=
  match (resource.index "status").asMap? with
  | none => Pending
  | some statuses =>
    match (statuses.index key).asString? with
    | some s => stageStatusFromString s
    | none => Pending

/-- A YAML encoder that always succeeds, for concrete evaluations. -/
def sampleYaml : Object → Except GoError String := fun _ => Except.ok "yaml"

/-- An object with a repository URL and no metadata. -/
def sampleNoName : Object :=
  [("spec", Value.map [("repoUrl", Value.str "https://example.com/repo")])]

/-- An object whose name is the empty string. -/
def sampleEmptyName : Object :=
  [("metadata", Value.map [("name", Value.str "")]),
   ("spec", Value.map [("repoUrl", Value.str "https://example.com/repo")])]

/-- A named object whose status section is not a map. -/
def sampleBadStatus : Object :=
  [("metadata", Value.map [("name", Value.str "brave-lion")]),
   ("spec", Value.map [("repoUrl", Value.str "https://example.com/repo")]),
   ("status", Value.int 5)]

/-- A named object with a partly filled status section. -/
def sampleRunning : Object :=
  [("metadata", Value.map [("name", Value.str "calm-otter")]),
   ("spec", Value.map [("repoUrl", Value.str "https://example.com/other")]),
   ("status", Value.map [("analyzer", Value.str "Succeeded"), ("scanner", Value.str "Running"),
                         ("reporter", Value.bool true)])]

/-- The entry `e` pairs the name of pod `p` with the log text fetched for it. -/
def Fetched (oc : ortController) (p : Pod) (e : PodLogs) : Prop :=
  e.PodName = p.Name ∧ oc.logs p.Name = Except.ok e.PodLogs

/-- A cluster with two runs, four pods and one pod whose log cannot be read. -/
def sampleController : ortController :=
  { autoname := "brave-lion"
    create := fun obj => Except.ok obj
    list := Except.ok [sampleBadStatus, sampleRunning]
    get := fun name =>
      if name = "brave-lion" then Except.ok sampleBadStatus else Except.error "not found"
    pods := Except.ok
      [⟨"scanner-foo-1", "u1"⟩, ⟨"analyzer-foo-1", "u2"⟩, ⟨"scanner-foo-2", "u3"⟩,
       ⟨"analyzer-bar-1", "u4"⟩, ⟨"reporter-foo-1", "u5"⟩]
    logs := fun podName =>
      if podName = "scanner-foo-2" then Except.error "container not ready"
      else Except.ok ("log of " ++ podName) }

/-- A JSON encoder that always succeeds, for concrete evaluations. -/
def sampleJson : Object → Except GoError String := fun _ => Except.ok "json"

/-- A bot whose short user id is `@bot`. -/
def sampleBot : matrixBot :=
  { oc := sampleController, UserID := "@bot:matrix.example.org", Host := "matrix.example.org" }

/-- A message event from `@alice` in room `!room` with the given body. -/
def sampleEvent (body : String) : Event :=
  { Body := some body, Sender := "@alice", RoomID := "!room" }

/-- The string a map of raw values holds at `k`, the empty string when `k` is
absent or holds no string. -/
def stringAt (m : Object) (k : String) : String :=
  match m.lookup k with
  | some (Value.str s) => s
  | _ => ""

/-- A run as `createRun` builds it: a name, a repository URL, no status section. -/
def sampleFresh : Object :=
  ortController.newRun "brave-lion" "https://example.com/repo"

/-- A cluster with the runs `foo` and `foo-bar`, each with one pod of stage `scan`. -/
def sampleScanController : ortController :=
  { autoname := "foo"
    create := fun obj => Except.ok obj
    list := Except.ok []
    get := fun _ => Except.error "not found"
    pods := Except.ok [⟨"scan-foo-bar-xyz", "u1"⟩, ⟨"scan-foo-abc", "u2"⟩]
    logs := fun podName => Except.ok ("log of " ++ podName) }

/-- A named run whose status section holds the analyzer status only. -/
def sampleAnalyzing : Object :=
  [("metadata", Value.map [("name", Value.str "calm-otter")]),
   ("spec", Value.map [("repoUrl", Value.str "https://example.com/other")]),
   ("status", Value.map [("analyzer", Value.str "Running")])]

/-- A bot with the handle `@ort`. -/
def sampleOtherBot : matrixBot :=
  { oc := sampleController, UserID := "@ort:matrix.example.org", Host := "matrix.example.org" }

/-- The bot `@bot` on a cluster that holds one freshly created run. -/
def sampleFreshBot : matrixBot :=
  { oc := { sampleController with list := Except.ok [sampleFresh] },
    UserID := "@bot:matrix.example.org", Host := "matrix.example.org" }

/-! ## Lemmas -/

theorem index_eq_of_lookup {m : Object} {k : String} {v : Value}
    (h : m.lookup k = some v) : m.index k = v := by
  simp [Object.index, h]

theorem index_of_lookup_none {m : Object} {k : String}
    (h : m.lookup k = none) : m.index k = Value.null := by
  simp [Object.index, h]

theorem asMap?_eq_some {v : Value} {m : Object} : v.asMap? = some m ↔ v = Value.map m := by
  cases v <;> simp [Value.asMap?]

theorem asString?_eq_some {v : Value} {s : String} :
    v.asString? = some s ↔ v = Value.str s := by
  cases v <;> simp [Value.asString?]

/-- The typed read of `sect.key` the translator performs, as an option. -/
theorem fieldIs_iff (resource : Object) (sect key s : String) :
    fieldIs resource sect key s ↔
      ∃ m, (resource.index sect).asMap? = some m ∧ (m.index key).asString? = some s := by
  unfold fieldIs
  constructor
  · rintro ⟨m, h1, h2⟩
    exact ⟨m, by simp [index_eq_of_lookup h1, Value.asMap?],
      by simp [index_eq_of_lookup h2, Value.asString?]⟩
  · rintro ⟨m, h1, h2⟩
    rw [asMap?_eq_some] at h1
    rw [asString?_eq_some] at h2
    refine ⟨m, ?_, ?_⟩
    · cases h : List.lookup sect resource with
      | none => simp [Object.index, h] at h1
      | some v => simp [Object.index, h] at h1; simp [h1]
    · cases h : List.lookup key m with
      | none => simp [Object.index, h] at h2
      | some v => simp [Object.index, h] at h2; simp [h2]

theorem stageStatusFromString_cases (s : String) :
    (s = "Running" → stageStatusFromString s = Running) ∧
    (s = "Succeeded" → stageStatusFromString s = Succeeded) ∧
    (s = "Failed" → stageStatusFromString s = Failed) ∧
    (s = "Aborted" → stageStatusFromString s = Aborted) ∧
    (s = "Pending" → stageStatusFromString s = Pending) ∧
    (s ∉ ["Running", "Succeeded", "Failed", "Aborted", "Pending"] →
      stageStatusFromString s = Pending) := by
  refine ⟨?_, ?_, ?_, ?_, ?_, ?_⟩
  · rintro rfl; decide
  · rintro rfl; decide
  · rintro rfl; decide
  · rintro rfl; decide
  · rintro rfl; decide
  · intro h
    simp only [List.mem_cons, List.mem_singleton, not_or, List.not_mem_nil, or_false] at h
    simp [stageStatusFromString, h.1, h.2.1, h.2.2.1, h.2.2.2.1]

theorem stageAt_rule (resource : Object) (key : String) :
    StageRule resource key (stageAt resource key) := by
  unfold StageRule stageAt
  refine ⟨?_, ?_, ?_, ?_, ?_⟩
  · intro statuses s h1 h2
    simp only [index_eq_of_lookup h1, Value.asMap?, index_eq_of_lookup h2, Value.asString?]
    exact stageStatusFromString_cases s
  · intro statuses v h1 h2 h3
    simp only [index_eq_of_lookup h1, Value.asMap?, index_eq_of_lookup h2, h3]
  · intro statuses h1 h2
    simp only [index_eq_of_lookup h1, Value.asMap?, index_of_lookup_none h2, Value.asString?]
  · intro h1
    simp only [index_of_lookup_none h1, Value.asMap?]
  · intro v h1 h2
    simp only [index_eq_of_lookup h1, h2]

theorem runStatus_fields (resource : Object) :
    (runStatusFromUnstructured resource).Analyzer = stageAt resource "analyzer" ∧
    (runStatusFromUnstructured resource).Scanner = stageAt resource "scanner" ∧
    (runStatusFromUnstructured resource).Reporter = stageAt resource "reporter" := by
  unfold runStatusFromUnstructured stageAt
  generalize (resource.index "status").asMap? = st
  cases st with
  | none => simp
  | some statuses =>
    dsimp only
    generalize (statuses.index "analyzer").asString? = a
    generalize (statuses.index "scanner").asString? = b
    generalize (statuses.index "reporter").asString? = c
    cases a <;> cases b <;> cases c <;> simp

/-! ## Claims -/

/-- C2: for each of the stage keys analyzer, scanner and reporter,
`runStatusFromUnstructured` sets the stage to the status matching the string
stored at that key of the status map when it is one of the five status names,
and to `Pending` when the string is any other, the value is not a string, the
key is absent, or the status section is absent or not a map. -/
theorem runStatusFromUnstructured_stage_rule (resource : Object) :
    StageRule resource "analyzer" (runStatusFromUnstructured resource).Analyzer ∧
    StageRule resource "scanner" (runStatusFromUnstructured resource).Scanner ∧
    StageRule resource "reporter" (runStatusFromUnstructured resource).Reporter := by
  obtain ⟨ha, hs, hr⟩ := runStatus_fields resource
  rw [ha, hs, hr]
  exact ⟨stageAt_rule _ _, stageAt_rule _ _, stageAt_rule _ _⟩

/-- A partly filled status section: analyzer `Succeeded`, scanner `Running`, and
a reporter entry that is not a string, hence `Pending`. -/
theorem runStatusFromUnstructured_stage_rule_witness :
    (runStatusFromUnstructured sampleRunning).Analyzer = Succeeded ∧
    (runStatusFromUnstructured sampleRunning).Scanner = Running ∧
    (runStatusFromUnstructured sampleRunning).Reporter = Pending ∧
    (runStatusFromUnstructured sampleBadStatus).Analyzer = Pending := by
  obtain ⟨ha, hs, hr⟩ := runStatusFromUnstructured_stage_rule sampleRunning
  obtain ⟨hb, -, -⟩ := runStatusFromUnstructured_stage_rule sampleBadStatus
  refine ⟨?_, ?_, ?_, ?_⟩
  · exact (ha.1 _ "Succeeded" rfl rfl).2.1 rfl
  · exact (hs.1 _ "Running" rfl rfl).1 rfl
  · exact hr.2.1 _ (Value.bool true) rfl rfl rfl
  · exact hb.2.2.2.2 (Value.int 5) rfl rfl

/-- C6: `stageStatusFromString` returns `Running`, `Succeeded`, `Failed` or
`Aborted` exactly on the strings "Running", "Succeeded", "Failed", "Aborted"
(compared character for character), and `Pending` on every other string, among
them "", "running" and "Unknown"; being a total function it never fails. -/
theorem stageStatusFromString_exact (s : String) :
    (stageStatusFromString s = Running ↔ s = "Running") ∧
    (stageStatusFromString s = Succeeded ↔ s = "Succeeded") ∧
    (stageStatusFromString s = Failed ↔ s = "Failed") ∧
    (stageStatusFromString s = Aborted ↔ s = "Aborted") ∧
    (stageStatusFromString s = Pending ↔
      s ≠ "Running" ∧ s ≠ "Succeeded" ∧ s ≠ "Failed" ∧ s ≠ "Aborted") ∧
    stageStatusFromString "" = Pending ∧
    stageStatusFromString "running" = Pending ∧
    stageStatusFromString "Unknown" = Pending := by
  refine ⟨?_, ?_, ?_, ?_, ?_, by decide, by decide, by decide⟩ <;>
    (unfold stageStatusFromString
     split_ifs <;> simp_all [Running, Succeeded, Failed, Aborted, Pending])

theorem translate_of_fields (yamlMarshal : Object → Except GoError String)
    (resource : Object) (name repoUrl : String)
    (hn : fieldIs resource "metadata" "name" name)
    (hr : fieldIs resource "spec" "repoUrl" repoUrl) (withYaml : Bool) :
    unstructuredToOrtRun yamlMarshal resource withYaml =
      if withYaml then
        match yamlMarshal resource with
        | Except.error e =>
          Result.err { Name := name, RepoUrl := repoUrl,
                       Status := runStatusFromUnstructured resource,
                       KubernetesResource := "" } e
        | Except.ok objYaml =>
          Result.ok { Name := name, RepoUrl := repoUrl,
                      Status := runStatusFromUnstructured resource,
                      KubernetesResource := objYaml }
      else
        Result.ok { Name := name, RepoUrl := repoUrl,
                    Status := runStatusFromUnstructured resource,
                    KubernetesResource := "" } := by
  obtain ⟨m, h1, h2⟩ := (fieldIs_iff _ _ _ _).1 hn
  obtain ⟨m', h3, h4⟩ := (fieldIs_iff _ _ _ _).1 hr
  unfold unstructuredToOrtRun
  simp only [h1, h2, h3, h4]

theorem unstructuredToOrtRun_ok_of_fields (yamlMarshal : Object → Except GoError String)
    (resource : Object) (name repoUrl : String)
    (hn : fieldIs resource "metadata" "name" name)
    (hr : fieldIs resource "spec" "repoUrl" repoUrl) :
    ∃ run, unstructuredToOrtRun yamlMarshal resource false = Result.ok run ∧
      run.Name = name ∧ run.RepoUrl = repoUrl ∧
      run.Status = runStatusFromUnstructured resource ∧ run.KubernetesResource = "" := by
  rw [translate_of_fields yamlMarshal resource name repoUrl hn hr]
  exact ⟨{ Name := name, RepoUrl := repoUrl, Status := runStatusFromUnstructured resource,
            KubernetesResource := "" }, by simp, rfl, rfl, rfl, rfl⟩

theorem translate_panic_iff (yamlMarshal : Object → Except GoError String)
    (resource : Object) (withYaml : Bool) :
    unstructuredToOrtRun yamlMarshal resource withYaml = Result.panic ↔
      ¬ ((∃ s, fieldIs resource "metadata" "name" s) ∧
         (∃ s, fieldIs resource "spec" "repoUrl" s)) := by
  constructor
  · rintro h ⟨⟨n, hn⟩, ⟨u, hu⟩⟩
    rw [translate_of_fields yamlMarshal resource n u hn hu] at h
    cases withYaml
    · simp at h
    · simp only [if_true] at h
      cases hy : yamlMarshal resource <;> simp [hy] at h
  · intro h
    cases h1 : (resource.index "metadata").asMap? with
    | none => simp only [unstructuredToOrtRun, h1]
    | some m =>
      cases h2 : (m.index "name").asString? with
      | none => simp only [unstructuredToOrtRun, h1, h2]
      | some n =>
        cases h3 : (resource.index "spec").asMap? with
        | none => simp only [unstructuredToOrtRun, h1, h2, h3]
        | some m' =>
          cases h4 : (m'.index "repoUrl").asString? with
          | none => simp only [unstructuredToOrtRun, h1, h2, h3, h4]
          | some u =>
            exact absurd ⟨⟨n, (fieldIs_iff _ _ _ _).2 ⟨m, h1, h2⟩⟩,
              ⟨u, (fieldIs_iff _ _ _ _).2 ⟨m', h3, h4⟩⟩⟩ h

theorem translate_err (yamlMarshal : Object → Except GoError String)
    (resource : Object) (withYaml : Bool) (run : OrtRun) (e : GoError)
    (h : unstructuredToOrtRun yamlMarshal resource withYaml = Result.err run e) :
    withYaml = true ∧ yamlMarshal resource = Except.error e := by
  by_cases hf : (∃ s, fieldIs resource "metadata" "name" s) ∧
      (∃ s, fieldIs resource "spec" "repoUrl" s)
  · obtain ⟨⟨n, hn⟩, ⟨u, hu⟩⟩ := hf
    rw [translate_of_fields yamlMarshal resource n u hn hu] at h
    cases withYaml
    · simp at h
    · simp only [if_true] at h
      cases hy : yamlMarshal resource with
      | error e' => simp [hy] at h; simp [h.2]
      | ok v => simp [hy] at h
  · rw [(translate_panic_iff yamlMarshal resource withYaml).2 hf] at h
    cases h

/-- C3, as the code has it: `unstructuredToOrtRun` aborts with a run-time panic,
and returns no error value to its caller, if and only if `metadata.name` or
`spec.repoUrl` is missing or is not a string (the section being missing or not
a map included); the only error it ever returns is that of the YAML encoder,
when the raw resource is asked for. -/
theorem unstructuredToOrtRun_panics_iff (yamlMarshal : Object → Except GoError String)
    (resource : Object) (withYaml : Bool) :
    (unstructuredToOrtRun yamlMarshal resource withYaml = Result.panic ↔
      ¬ ((∃ s, fieldIs resource "metadata" "name" s) ∧
         (∃ s, fieldIs resource "spec" "repoUrl" s))) ∧
    (∀ run e, unstructuredToOrtRun yamlMarshal resource withYaml = Result.err run e ↔
      withYaml = true ∧ yamlMarshal resource = Except.error e ∧
      fieldIs resource "metadata" "name" run.Name ∧
      fieldIs resource "spec" "repoUrl" run.RepoUrl ∧
      run.Status = runStatusFromUnstructured resource ∧ run.KubernetesResource = "") := by
  refine ⟨translate_panic_iff yamlMarshal resource withYaml, ?_⟩
  intro run e
  constructor
  · intro h
    obtain ⟨hw, hy⟩ := translate_err yamlMarshal resource withYaml run e h
    by_cases hf : (∃ s, fieldIs resource "metadata" "name" s) ∧
        (∃ s, fieldIs resource "spec" "repoUrl" s)
    · obtain ⟨⟨n, hn⟩, ⟨u, hu⟩⟩ := hf
      rw [translate_of_fields yamlMarshal resource n u hn hu, hw, if_pos rfl, hy] at h
      simp only [Result.err.injEq] at h
      obtain ⟨h, -⟩ := h
      subst h
      exact ⟨hw, hy, hn, hu, rfl, rfl⟩
    · rw [(translate_panic_iff yamlMarshal resource withYaml).2 hf] at h
      cases h
  · rintro ⟨hw, hy, hn, hu, hs, hk⟩
    rw [translate_of_fields yamlMarshal resource _ _ hn hu, hw, if_pos rfl, hy]
    simp only [Result.err.injEq, and_true]
    cases run
    simp_all

/-- C3, as stated, fails: on an object without `metadata.name` the function
panics; no error is returned to the caller. -/
theorem unstructuredToOrtRun_missing_name_no_error :
    (¬ ∃ s, fieldIs sampleNoName "metadata" "name" s) ∧
    unstructuredToOrtRun sampleYaml sampleNoName false = Result.panic ∧
    ¬ ∃ run e, unstructuredToOrtRun sampleYaml sampleNoName false = Result.err run e := by
  refine ⟨?_, rfl, ?_⟩
  · rintro ⟨s, m, h, -⟩
    simp [sampleNoName, List.lookup] at h
  · rintro ⟨run, e, h⟩
    have : unstructuredToOrtRun sampleYaml sampleNoName false = Result.panic := rfl
    rw [this] at h
    cases h

/-- C4: when `metadata.name` and `spec.repoUrl` are strings,
`unstructuredToOrtRun` without the raw resource succeeds whatever the status
section is, and the run carries exactly that name and that repository URL. -/
theorem unstructuredToOrtRun_succeeds (yamlMarshal : Object → Except GoError String)
    (resource : Object) (name repoUrl : String)
    (hn : fieldIs resource "metadata" "name" name)
    (hr : fieldIs resource "spec" "repoUrl" repoUrl) :
    ∃ run, unstructuredToOrtRun yamlMarshal resource false = Result.ok run ∧
      run.Name = name ∧ run.RepoUrl = repoUrl ∧
      run.Status = runStatusFromUnstructured resource ∧ run.KubernetesResource = "" :=
  unstructuredToOrtRun_ok_of_fields yamlMarshal resource name repoUrl hn hr

/-- An object whose status section is not a map translates to a run with the
stored name and URL. -/
theorem unstructuredToOrtRun_succeeds_witness :
    ∃ run, unstructuredToOrtRun sampleYaml sampleBadStatus false = Result.ok run ∧
      run.Name = "brave-lion" ∧ run.RepoUrl = "https://example.com/repo" ∧
      run.Status = runStatusFromUnstructured sampleBadStatus ∧
      run.KubernetesResource = "" :=
  unstructuredToOrtRun_succeeds sampleYaml sampleBadStatus "brave-lion"
    "https://example.com/repo" ⟨_, rfl, rfl⟩ ⟨_, rfl, rfl⟩

theorem translateList_loop (yamlMarshal : Object → Except GoError String) :
    ∀ (items : List Object) (acc : List OrtRun),
      (∀ item ∈ items, ∃ n u, fieldIs item "metadata" "name" n ∧
        fieldIs item "spec" "repoUrl" u) →
      ∃ runs, unstructuredListToOrtRunList.loop yamlMarshal items acc = Result.ok ⟨acc ++ runs⟩ ∧
        List.Forall₂ (fun item run =>
          unstructuredToOrtRun yamlMarshal item false = Result.ok run ∧
          run.KubernetesResource = "") items runs := by
  intro items
  induction items with
  | nil =>
    intro acc _
    exact ⟨[], by simp [unstructuredListToOrtRunList.loop], List.Forall₂.nil⟩
  | cons item rest ih =>
    intro acc h
    obtain ⟨n, u, hn, hu⟩ := h item (List.mem_cons_self _ _)
    obtain ⟨run, hrun, -, -, -, hk⟩ := unstructuredToOrtRun_ok_of_fields yamlMarshal item n u hn hu
    obtain ⟨runs, hruns, hall⟩ :=
      ih (acc ++ [run]) (fun i hi => h i (List.mem_cons_of_mem _ hi))
    refine ⟨run :: runs, ?_, List.Forall₂.cons ⟨hrun, hk⟩ hall⟩
    simp only [unstructuredListToOrtRunList.loop, hrun, hruns, List.append_assoc,
      List.singleton_append]

/-- C5: on a list of objects that each have a string `metadata.name` and a
string `spec.repoUrl`, `unstructuredListToOrtRunList` succeeds and returns as
many runs as there are objects, the i-th run being the translation of the i-th
object, each with an empty `KubernetesResource`. -/
theorem unstructuredListToOrtRunList_valid (yamlMarshal : Object → Except GoError String)
    (items : List Object)
    (h : ∀ item ∈ items, ∃ n u, fieldIs item "metadata" "name" n ∧
      fieldIs item "spec" "repoUrl" u) :
    ∃ runs, unstructuredListToOrtRunList yamlMarshal items = Result.ok ⟨runs⟩ ∧
      runs.length = items.length ∧
      List.Forall₂ (fun item run =>
        unstructuredToOrtRun yamlMarshal item false = Result.ok run ∧
        run.KubernetesResource = "") items runs ∧
      (∀ i (hi : i < items.length) (hr : i < runs.length),
        unstructuredToOrtRun yamlMarshal (items.get ⟨i, hi⟩) false =
          Result.ok (runs.get ⟨i, hr⟩)) := by
  obtain ⟨runs, hruns, hall⟩ := translateList_loop yamlMarshal items [] h
  refine ⟨runs, by simpa [unstructuredListToOrtRunList] using hruns, hall.length_eq.symm,
    hall, ?_⟩
  intro i hi hr
  exact (List.forall₂_iff_get.1 hall).2 i hi hr |>.1

/-- Two valid objects, one without a usable status section, translate to two
runs in the order of the list. -/
theorem unstructuredListToOrtRunList_valid_witness :
    ∃ runs, unstructuredListToOrtRunList sampleYaml [sampleBadStatus, sampleRunning] =
        Result.ok ⟨runs⟩ ∧
      runs.length = [sampleBadStatus, sampleRunning].length ∧
      List.Forall₂ (fun item run =>
        unstructuredToOrtRun sampleYaml item false = Result.ok run ∧
        run.KubernetesResource = "") [sampleBadStatus, sampleRunning] runs ∧
      (∀ i (hi : i < [sampleBadStatus, sampleRunning].length) (hr : i < runs.length),
        unstructuredToOrtRun sampleYaml ([sampleBadStatus, sampleRunning].get ⟨i, hi⟩) false =
          Result.ok (runs.get ⟨i, hr⟩)) :=
  unstructuredListToOrtRunList_valid sampleYaml [sampleBadStatus, sampleRunning] (by
    intro item hitem
    simp only [List.mem_cons, List.mem_singleton, List.not_mem_nil, or_false] at hitem
    rcases hitem with rfl | rfl
    · exact ⟨"brave-lion", "https://example.com/repo", ⟨_, rfl, rfl⟩, ⟨_, rfl, rfl⟩⟩
    · exact ⟨"calm-otter", "https://example.com/other", ⟨_, rfl, rfl⟩, ⟨_, rfl, rfl⟩⟩)

/-- C10, as the code has it: when `unstructuredToOrtRun` succeeds, the run's
`Name` is exactly the string stored at `metadata.name`, hence non-empty whenever
that string is; and it does not succeed (it panics) whenever the object lacks a
string `metadata.name`. -/
theorem unstructuredToOrtRun_name (yamlMarshal : Object → Except GoError String)
    (resource : Object) (withYaml : Bool) :
    (∀ run, unstructuredToOrtRun yamlMarshal resource withYaml = Result.ok run →
      fieldIs resource "metadata" "name" run.Name ∧
      ((∀ s, fieldIs resource "metadata" "name" s → s ≠ "") → run.Name ≠ "")) ∧
    ((¬ ∃ s, fieldIs resource "metadata" "name" s) →
      unstructuredToOrtRun yamlMarshal resource withYaml = Result.panic) := by
  constructor
  · intro run h
    have hname : fieldIs resource "metadata" "name" run.Name := by
      by_cases hf : (∃ s, fieldIs resource "metadata" "name" s) ∧
          (∃ s, fieldIs resource "spec" "repoUrl" s)
      · obtain ⟨⟨n, hn⟩, ⟨u, hu⟩⟩ := hf
        rw [translate_of_fields yamlMarshal resource n u hn hu] at h
        cases withYaml
        · simp only [Bool.false_eq_true, if_false, Result.ok.injEq] at h
          subst h
          exact hn
        · simp only [if_true] at h
          cases hy : yamlMarshal resource with
          | error e => simp [hy] at h
          | ok v =>
            simp only [hy, Result.ok.injEq] at h
            subst h
            exact hn
      · rw [(translate_panic_iff yamlMarshal resource withYaml).2 hf] at h
        cases h
    exact ⟨hname, fun hne => hne _ hname⟩
  · intro h
    exact (translate_panic_iff yamlMarshal resource withYaml).2 (fun hf => h hf.1)

/-- On an object without `metadata.name` the translation panics. -/
theorem unstructuredToOrtRun_name_witness :
    unstructuredToOrtRun sampleYaml sampleNoName true = Result.panic :=
  (unstructuredToOrtRun_name sampleYaml sampleNoName true).2 (by
    rintro ⟨s, m, h, -⟩
    simp [sampleNoName, List.lookup] at h)

/-- C10, as stated, fails: an object whose `metadata.name` is the empty string
translates successfully into a run with an empty `Name`. -/
theorem unstructuredToOrtRun_empty_name :
    ∃ run, unstructuredToOrtRun sampleYaml sampleEmptyName false = Result.ok run ∧
      run.Name = "" :=
  ⟨_, rfl, rfl⟩

theorem HasPrefix_iff (s p : String) : strings.HasPrefix s p = true ↔ p.data <+: s.data := by
  unfold strings.HasPrefix
  simp only [Bool.and_eq_true, decide_eq_true_eq, beq_iff_eq]
  constructor
  · rintro ⟨-, h⟩
    rw [← h]
    exact List.take_prefix _ _
  · intro h
    exact ⟨h.length_le, List.prefix_iff_eq_take.1 h |>.symm⟩

theorem listPods_loop (pfx : String) :
    ∀ (items jobPods : List Pod),
      ortController.listPods.loop pfx items jobPods =
        jobPods ++ items.filter (fun pod => strings.HasPrefix pod.Name pfx) := by
  intro items
  induction items with
  | nil => intro jobPods; simp [ortController.listPods.loop]
  | cons pod rest ih =>
    intro jobPods
    unfold ortController.listPods.loop
    by_cases h : strings.HasPrefix pod.Name pfx = true
    · simp [h, ih]
    · simp [h, ih]

/-- C1: when the pod listing succeeds, `listPods` returns exactly the pods of the
listing whose name starts with `stage ++ "-" ++ name`, in the order of the
listing, and the empty list, without an error, when no pod name has that
prefix. -/
theorem listPods_exact (oc : ortController) (items : List Pod) (name stage : String)
    (h : oc.pods = Except.ok items) :
    ∃ jobPods, oc.listPods name stage = Result.ok jobPods ∧
      jobPods = items.filter (fun pod => decide ((stage ++ "-" ++ name).data <+: pod.Name.data)) ∧
      jobPods.Sublist items ∧
      (∀ pod, pod ∈ jobPods ↔ pod ∈ items ∧ ∃ rest, pod.Name = stage ++ "-" ++ name ++ rest) ∧
      ((∀ pod ∈ items, ¬ ∃ rest, pod.Name = stage ++ "-" ++ name ++ rest) → jobPods = []) := by
  have hfilter : (fun pod : Pod => strings.HasPrefix pod.Name (stage ++ "-" ++ name)) =
      (fun pod => decide ((stage ++ "-" ++ name).data <+: pod.Name.data)) := by
    funext pod
    rw [Bool.eq_iff_iff, HasPrefix_iff]
    simp
  have hstarts : ∀ pod : Pod, (stage ++ "-" ++ name).data <+: pod.Name.data ↔
      ∃ rest, pod.Name = stage ++ "-" ++ name ++ rest := by
    intro pod
    constructor
    · rintro ⟨t, ht⟩
      refine ⟨String.mk t, ?_⟩
      apply String.ext
      rw [← ht]
      simp [String.data_append]
    · rintro ⟨rest, hrest⟩
      exact ⟨rest.data, by rw [hrest]; simp [String.data_append]⟩
  refine ⟨items.filter (fun pod => decide ((stage ++ "-" ++ name).data <+: pod.Name.data)),
    ?_, rfl, List.filter_sublist _, ?_, ?_⟩
  · simp only [ortController.listPods, h, listPods_loop, hfilter, List.nil_append]
  · intro pod
    simp only [List.mem_filter, decide_eq_true_eq, hstarts]
  · intro hnone
    rw [List.filter_eq_nil_iff]
    intro pod hpod
    simp only [decide_eq_true_eq, hstarts]
    exact hnone pod hpod

/-- The pods listed for run `foo`, stage `scanner`, are the two scanner pods of
that run, in listing order. -/
theorem listPods_exact_witness :
    ∃ jobPods, sampleController.listPods "foo" "scanner" = Result.ok jobPods ∧
      jobPods = [⟨"scanner-foo-1", "u1"⟩, ⟨"scanner-foo-2", "u3"⟩] := by
  obtain ⟨jobPods, h1, h2, -⟩ :=
    listPods_exact sampleController
      [⟨"scanner-foo-1", "u1"⟩, ⟨"analyzer-foo-1", "u2"⟩, ⟨"scanner-foo-2", "u3"⟩,
       ⟨"analyzer-bar-1", "u4"⟩, ⟨"reporter-foo-1", "u5"⟩] "foo" "scanner" rfl
  exact ⟨jobPods, h1, by rw [h2]; decide⟩

theorem handleLogs_loop_ok (oc : ortController) :
    ∀ (pods : List Pod) (entries podLogs : List PodLogs) (calls : List Effect),
      List.Forall₂ (Fetched oc) pods entries →
      handleLogs.loop oc pods podLogs calls =
        (calls ++ pods.map (fun p => Effect.getLogs p.Name), Result.ok (podLogs ++ entries)) := by
  intro pods
  induction pods with
  | nil =>
    intro entries podLogs calls h
    cases h
    simp [handleLogs.loop]
  | cons pod rest ih =>
    intro entries podLogs calls h
    cases h with
    | cons hpe hrest =>
      rename_i e es
      obtain ⟨hname, hlog⟩ := hpe
      have he : e = { PodName := pod.Name, PodLogs := e.PodLogs } := by
        cases e; simp_all
      simp only [handleLogs.loop, ortController.getLogs, hlog]
      rw [ih es _ _ hrest]
      rw [he]
      simp

theorem handleLogs_loop_fail (oc : ortController) :
    ∀ (pre : List Pod) (entries podLogs : List PodLogs) (calls : List Effect)
      (bad : Pod) (post : List Pod) (e : GoError),
      List.Forall₂ (Fetched oc) pre entries → oc.logs bad.Name = Except.error e →
      handleLogs.loop oc (pre ++ bad :: post) podLogs calls =
        (calls ++ (pre ++ [bad]).map (fun p => Effect.getLogs p.Name),
          Result.err (podLogs ++ entries) e) := by
  intro pre
  induction pre with
  | nil =>
    intro entries podLogs calls bad post e h hbad
    cases h
    simp [handleLogs.loop, ortController.getLogs, hbad]
  | cons pod rest ih =>
    intro entries podLogs calls bad post e h hbad
    cases h with
    | cons hpe hrest =>
      rename_i en es
      obtain ⟨hname, hlog⟩ := hpe
      have he : en = { PodName := pod.Name, PodLogs := en.PodLogs } := by
        cases en; simp_all
      simp only [List.cons_append, handleLogs.loop, ortController.getLogs, hlog, List.append_eq]
      rw [ih es _ _ bad post e hrest hbad]
      rw [he]
      simp

theorem fetched_of_all_ok (oc : ortController) :
    ∀ pods : List Pod, (∀ p ∈ pods, ∃ l, oc.logs p.Name = Except.ok l) →
      ∃ entries, List.Forall₂ (Fetched oc) pods entries := by
  intro pods
  induction pods with
  | nil => intro _; exact ⟨[], List.Forall₂.nil⟩
  | cons pod rest ih =>
    intro h
    obtain ⟨l, hl⟩ := h pod (List.mem_cons_self _ _)
    obtain ⟨es, hes⟩ := ih (fun p hp => h p (List.mem_cons_of_mem _ hp))
    exact ⟨⟨pod.Name, l⟩ :: es, List.Forall₂.cons ⟨rfl, hl⟩ hes⟩

theorem first_failing (oc : ortController) :
    ∀ pods : List Pod, (∃ p ∈ pods, ∃ e, oc.logs p.Name = Except.error e) →
      ∃ pre bad post e, pods = pre ++ bad :: post ∧
        (∀ p ∈ pre, ∃ l, oc.logs p.Name = Except.ok l) ∧ oc.logs bad.Name = Except.error e := by
  intro pods
  induction pods with
  | nil => rintro ⟨p, hp, -⟩; cases hp
  | cons pod rest ih =>
    rintro ⟨p, hp, e, he⟩
    cases hpod : oc.logs pod.Name with
    | error e' => exact ⟨[], pod, rest, e', rfl, by simp, hpod⟩
    | ok l =>
      have hp' : p ∈ rest := by
        rcases List.mem_cons.1 hp with rfl | h
        · rw [hpod] at he; cases he
        · exact h
      obtain ⟨pre, bad, post, e'', hsplit, hpre, hbad⟩ := ih ⟨p, hp', e, he⟩
      refine ⟨pod :: pre, bad, post, e'', by simp [hsplit], ?_, hbad⟩
      intro q hq
      rcases List.mem_cons.1 hq with rfl | h
      · exact ⟨l, hpod⟩
      · exact hpre q h

theorem handleLogs_located (oc : ortController) (r : Request) (path name stage : String)
    (pods : List Pod)
    (hm : r.Method = "GET")
    (hp : strings.CutPrefix r.Path "/logs/" = (path, true))
    (hc : strings.Cut path "/" = (name, stage, true))
    (hl : oc.listPods name stage = Result.ok pods) :
    handleLogs (Except.ok oc) r =
      match handleLogs.loop oc pods [] [Effect.listPods name stage] with
      | (calls, Result.panic) => ⟨calls, none⟩
      | (calls, Result.err _ _) => ⟨calls, some (writeStatus 500 "GET")⟩
      | (calls, Result.ok podLogs) =>
        ⟨calls, some { status := 200, allowedMethods := "GET",
                       contentType := some "application/json",
                       body := some { RunName := name, RunStage := stage, PodLogs := podLogs } }⟩ := by
  have h1 : ¬ ("GET" = "OPTIONS") := by decide
  simp only [handleLogs, hm, h1, if_false, ne_eq, not_true_eq_false, hp, hc, hl]

/-- C7: once the pods of the run stage are located, `handleLogs` either, when
every fetch succeeds, answers with a bundle carrying the requested run name and
stage and one entry per located pod, in located order, each pairing the pod name
with the log fetched for it; or, when a fetch fails, answers with a bare error
status and no bundle, having stopped at the first failing pod. With no located
pod the answer is a bundle with no entries. -/
theorem handleLogs_bundle (oc : ortController) (r : Request) (path name stage : String)
    (pods : List Pod)
    (hm : r.Method = "GET")
    (hp : strings.CutPrefix r.Path "/logs/" = (path, true))
    (hc : strings.Cut path "/" = (name, stage, true))
    (hl : oc.listPods name stage = Result.ok pods) :
    ((∀ p ∈ pods, ∃ l, oc.logs p.Name = Except.ok l) →
      ∃ entries, List.Forall₂ (Fetched oc) pods entries ∧
        handleLogs (Except.ok oc) r =
          ⟨Effect.listPods name stage :: pods.map (fun p => Effect.getLogs p.Name),
            some { status := 200, allowedMethods := "GET",
                   contentType := some "application/json",
                   body := some { RunName := name, RunStage := stage, PodLogs := entries } }⟩) ∧
    ((∃ p ∈ pods, ∃ e, oc.logs p.Name = Except.error e) →
      ∃ pre bad post e, pods = pre ++ bad :: post ∧
        (∀ p ∈ pre, ∃ l, oc.logs p.Name = Except.ok l) ∧
        oc.logs bad.Name = Except.error e ∧
        handleLogs (Except.ok oc) r =
          ⟨Effect.listPods name stage :: (pre ++ [bad]).map (fun p => Effect.getLogs p.Name),
            some { status := 500, allowedMethods := "GET", contentType := none,
                   body := none }⟩) ∧
    (pods = [] →
      handleLogs (Except.ok oc) r =
        ⟨[Effect.listPods name stage],
          some { status := 200, allowedMethods := "GET",
                 contentType := some "application/json",
                 body := some { RunName := name, RunStage := stage, PodLogs := [] } }⟩) := by
  have hbase := handleLogs_located oc r path name stage pods hm hp hc hl
  refine ⟨?_, ?_, ?_⟩
  · intro hall
    obtain ⟨entries, hentries⟩ := fetched_of_all_ok oc pods hall
    refine ⟨entries, hentries, ?_⟩
    rw [hbase, handleLogs_loop_ok oc pods entries [] _ hentries]
    simp
  · intro hsome
    obtain ⟨pre, bad, post, e, hsplit, hpre, hbad⟩ := first_failing oc pods hsome
    obtain ⟨entries, hentries⟩ := fetched_of_all_ok oc pre hpre
    refine ⟨pre, bad, post, e, hsplit, hpre, hbad, ?_⟩
    rw [hbase, hsplit, handleLogs_loop_fail oc pre entries [] _ bad post e hentries hbad]
    simp [writeStatus]
  · intro hnil
    rw [hbase, hnil]
    simp [handleLogs.loop]

/-- The request for the scanner logs of run `foo` stops at the second scanner
pod, whose log cannot be read, and answers with status 500 and no bundle; the
request for the reporter logs of run `bar`, which has no pod, answers with an
empty bundle; the request for the analyzer logs of run `foo` answers with the
one fetched entry. -/
theorem handleLogs_bundle_witness :
    (∃ pre bad post e,
      [(⟨"scanner-foo-1", "u1"⟩ : Pod), ⟨"scanner-foo-2", "u3"⟩] = pre ++ bad :: post ∧
      (∀ p ∈ pre, ∃ l, sampleController.logs p.Name = Except.ok l) ∧
      sampleController.logs bad.Name = Except.error e ∧
      handleLogs (Except.ok sampleController) ⟨"GET", "/logs/foo/scanner"⟩ =
        ⟨Effect.listPods "foo" "scanner" :: (pre ++ [bad]).map (fun p => Effect.getLogs p.Name),
          some { status := 500, allowedMethods := "GET", contentType := none,
                 body := none }⟩) ∧
    handleLogs (Except.ok sampleController) ⟨"GET", "/logs/foo/scanner"⟩ =
      ⟨[Effect.listPods "foo" "scanner", Effect.getLogs "scanner-foo-1",
        Effect.getLogs "scanner-foo-2"],
        some { status := 500, allowedMethods := "GET", contentType := none, body := none }⟩ ∧
    handleLogs (Except.ok sampleController) ⟨"GET", "/logs/bar/reporter"⟩ =
      ⟨[Effect.listPods "bar" "reporter"],
        some { status := 200, allowedMethods := "GET",
               contentType := some "application/json",
               body := some { RunName := "bar", RunStage := "reporter", PodLogs := [] } }⟩ ∧
    handleLogs (Except.ok sampleController) ⟨"GET", "/logs/foo/analyzer"⟩ =
      ⟨[Effect.listPods "foo" "analyzer", Effect.getLogs "analyzer-foo-1"],
        some { status := 200, allowedMethods := "GET",
               contentType := some "application/json",
               body := some { RunName := "foo", RunStage := "analyzer",
                              PodLogs := [⟨"analyzer-foo-1", "log of analyzer-foo-1"⟩] } }⟩ :=
  ⟨(handleLogs_bundle sampleController ⟨"GET", "/logs/foo/scanner"⟩ "foo/scanner" "foo"
      "scanner" [⟨"scanner-foo-1", "u1"⟩, ⟨"scanner-foo-2", "u3"⟩]
      rfl (by decide) (by decide) (by decide)).2.1
      ⟨⟨"scanner-foo-2", "u3"⟩, by decide, "container not ready", rfl⟩,
    by decide,
    (handleLogs_bundle sampleController ⟨"GET", "/logs/bar/reporter"⟩ "bar/reporter"
      "bar" "reporter" [] rfl (by decide) (by decide) (by decide)).2.2 rfl,
    by decide⟩

theorem indexOf_singleton (c : Char) :
    ∀ s : List Char, strings.indexOf [c] s =
      if c ∈ s then some (s.takeWhile (fun x => x != c)).length else none := by
  intro s
  induction s with
  | nil => simp [strings.indexOf]
  | cons x xs ih =>
    unfold strings.indexOf
    by_cases hx : x = c
    · subst hx
      simp [List.isPrefixOf]
    · have hx' : c ≠ x := fun h => hx h.symm
      have hne : (x != c) = true := by simpa using hx
      simp only [List.isPrefixOf, hx', beq_iff_eq, Bool.and_eq_true, false_and, if_false,
        ih, List.mem_cons, false_or, List.takeWhile_cons, hne, if_true, List.length_cons]
      split_ifs <;> simp
  
theorem take_takeWhile_length {α : Type} (p : α → Bool) :
    ∀ l : List α, l.take (l.takeWhile p).length = l.takeWhile p := by
  intro l
  induction l with
  | nil => rfl
  | cons x xs ih =>
    by_cases hx : p x = true
    · simp [List.takeWhile_cons, hx, ih]
    · simp [List.takeWhile_cons, hx]

theorem drop_takeWhile_length {α : Type} (p : α → Bool) :
    ∀ l : List α, l.drop (l.takeWhile p).length = l.dropWhile p := by
  intro l
  induction l with
  | nil => rfl
  | cons x xs ih =>
    by_cases hx : p x = true
    · simp [List.takeWhile_cons, List.dropWhile_cons, hx, ih]
    · simp [List.takeWhile_cons, List.dropWhile_cons, hx]

theorem Cut_space (s : String) :
    strings.Cut s " " =
      if ' ' ∈ s.data then
        (String.mk (s.data.takeWhile (fun x => x != ' ')),
          String.mk ((s.data.dropWhile (fun x => x != ' ')).drop 1), true)
      else (s, "", false) := by
  have hsep : (" " : String).data = [' '] := rfl
  unfold strings.Cut
  rw [hsep, indexOf_singleton]
  by_cases h : ' ' ∈ s.data
  · simp only [h, if_true, List.length_singleton]
    have h1 := take_takeWhile_length (fun x => x != ' ') s.data
    have h2 : s.data.drop ((s.data.takeWhile (fun x => x != ' ')).length + 1) =
        (s.data.dropWhile (fun x => x != ' ')).drop 1 := by
      rw [← drop_takeWhile_length (fun x => x != ' ') s.data, List.drop_drop, Nat.add_comm]
    rw [h1, h2]
  · simp only [h, if_false]

theorem CutPrefix_append (handle rest : String) :
    strings.CutPrefix (handle ++ rest) handle = (rest, true) := by
  have h : strings.HasPrefix (handle ++ rest) handle = true := by
    rw [HasPrefix_iff]
    exact ⟨rest.data, by simp [String.data_append]⟩
  simp [strings.CutPrefix, h, String.data_append]

theorem CutPrefix_not (body handle : String) (h : ¬ ∃ rest, body = handle ++ rest) :
    (strings.CutPrefix body handle).2 = false := by
  have h' : ¬ strings.HasPrefix body handle = true := by
    rw [HasPrefix_iff]
    rintro ⟨t, ht⟩
    exact h ⟨String.mk t, String.ext (by rw [← ht]; simp [String.data_append])⟩
  simp [strings.CutPrefix, h']

theorem handleMessage_ignored (marshalIndent : Object → Except GoError String)
    (mb : matrixBot) (ev : Event) (body handle : String)
    (hb : ev.Body = some body)
    (hh : (strings.CutSuffix mb.UserID (":" ++ mb.Host)).1 = handle)
    (h : ¬ ∃ rest, body = handle ++ rest) :
    mb.handleMessage marshalIndent ev = ⟨[], false⟩ := by
  have hcut := CutPrefix_not body handle h
  unfold matrixBot.handleMessage
  simp only [hb, hh]
  cases hc : strings.CutPrefix body handle with
  | mk b found =>
    rw [hc] at hcut
    simp only at hcut
    subst hcut
    rfl

theorem handleMessage_dispatched (marshalIndent : Object → Except GoError String)
    (mb : matrixBot) (ev : Event) (handle rest : String)
    (hb : ev.Body = some (handle ++ rest))
    (hh : (strings.CutSuffix mb.UserID (":" ++ mb.Host)).1 = handle) :
    mb.handleMessage marshalIndent ev =
      mb.handleCommand marshalIndent ev
        (strings.TrimSpace
          (String.mk ((strings.TrimSpace rest).data.takeWhile (fun x => x != ' '))))
        (strings.TrimSpace
          (String.mk (((strings.TrimSpace rest).data.dropWhile (fun x => x != ' ')).drop 1))) := by
  unfold matrixBot.handleMessage
  simp only [hb, hh, CutPrefix_append, Cut_space]
  by_cases hsp : ' ' ∈ (strings.TrimSpace rest).data
  · simp only [hsp, if_true]
  · simp only [hsp, if_false]
    have h1 : (strings.TrimSpace rest).data.takeWhile (fun x => x != ' ') =
        (strings.TrimSpace rest).data := by
      rw [List.takeWhile_eq_self_iff]
      intro x hx
      have : x ≠ ' ' := fun h => hsp (h ▸ hx)
      simpa using this
    have h2 : (strings.TrimSpace rest).data.dropWhile (fun x => x != ' ') = [] := by
      rw [List.dropWhile_eq_nil_iff]
      intro x hx
      have : x ≠ ' ' := fun h => hsp (h ▸ hx)
      simpa using this
    rw [h1, h2]
    rfl

/-- C8, as the code has it: `handleMessage` dispatches nothing when the handle is
not a prefix of the body; when it is, the text after the handle is trimmed of
white space, the command token is everything in the trimmed text up to its
first space character U+0020 (all of it when there is none), itself trimmed,
and the argument string is everything after that space, trimmed. -/
theorem handleMessage_split (marshalIndent : Object → Except GoError String)
    (mb : matrixBot) (ev : Event) (body handle : String)
    (hb : ev.Body = some body)
    (hh : (strings.CutSuffix mb.UserID (":" ++ mb.Host)).1 = handle) :
    ((¬ ∃ rest, body = handle ++ rest) → mb.handleMessage marshalIndent ev = ⟨[], false⟩) ∧
    (∀ rest, body = handle ++ rest →
      mb.handleMessage marshalIndent ev =
        mb.handleCommand marshalIndent ev
          (strings.TrimSpace
            (String.mk ((strings.TrimSpace rest).data.takeWhile (fun x => x != ' '))))
          (strings.TrimSpace
            (String.mk
              (((strings.TrimSpace rest).data.dropWhile (fun x => x != ' ')).drop 1)))) :=
  ⟨handleMessage_ignored marshalIndent mb ev body handle hb hh,
    fun rest hrest =>
      handleMessage_dispatched marshalIndent mb ev handle rest (hrest ▸ hb) hh⟩

/-- A message to `@bot` with two spaces after the command and a trailing newline
dispatches `show` with the trimmed argument; a message to another handle
dispatches nothing. -/
theorem handleMessage_split_witness :
    sampleBot.handleMessage sampleJson (sampleEvent "@bot  show  brave-lion \n") =
      sampleBot.handleCommand sampleJson (sampleEvent "@bot  show  brave-lion \n")
        "show" "brave-lion" ∧
    sampleBot.handleMessage sampleJson (sampleEvent "@bob show brave-lion") = ⟨[], false⟩ :=
  ⟨(handleMessage_split sampleJson sampleBot (sampleEvent "@bot  show  brave-lion \n")
      "@bot  show  brave-lion \n" "@bot" rfl (by decide)).2 "  show  brave-lion \n" (by decide),
   (handleMessage_split sampleJson sampleBot (sampleEvent "@bob show brave-lion")
      "@bob show brave-lion" "@bot" rfl (by decide)).1 (by
        rintro ⟨rest, h⟩
        have := congrArg (fun s => s.data.take 4) h
        simp [String.data_append] at this)⟩

/-- C8, as stated, fails: when a tab follows the command word, the dispatched
command token is the whole text, tab included, and the argument string is
empty; the token up to the first white space is `create`, which is not what is
dispatched. -/
theorem handleMessage_tab_not_split :
    strings.isSpace '\t' = true ∧
    String.mk ("create\thttps://example.com/repo".data.takeWhile
      (fun c => !strings.isSpace c)) = "create" ∧
    sampleBot.handleMessage sampleJson (sampleEvent "@bot create\thttps://example.com/repo") =
      sampleBot.handleCommand sampleJson (sampleEvent "@bot create\thttps://example.com/repo")
        "create\thttps://example.com/repo" "" ∧
    sampleBot.handleMessage sampleJson (sampleEvent "@bot create\thttps://example.com/repo") ≠
      sampleBot.handleCommand sampleJson (sampleEvent "@bot create\thttps://example.com/repo")
        "create" "https://example.com/repo" := by
  decide

theorem handleCommand_unknown (marshalIndent : Object → Except GoError String)
    (mb : matrixBot) (ev : Event) (c a : String)
    (hc : c ∉ ["help", "create", "list", "show"]) :
    mb.handleCommand marshalIndent ev c a =
      ⟨[Effect.SendText ev.RoomID
          (ev.Sender ++ " " ++
            ("unknown command '" ++ c ++ "'. Use 'help' to list all available commands"))],
        false⟩ := by
  simp only [List.mem_cons, List.mem_singleton, List.not_mem_nil, or_false, not_or] at hc
  simp [matrixBot.handleCommand, hc.1, hc.2.1, hc.2.2.1, hc.2.2.2,
    matrixBot.sendCommandResponse]

theorem handleCommand_create (marshalIndent : Object → Except GoError String)
    (mb : matrixBot) (ev : Event) (a : String) :
    (mb.handleCommand marshalIndent ev "create" a).calls.filter Effect.isRunOperation =
      [Effect.createRun a] := by
  have h1 : ¬ ("create" = "help") := by decide
  simp only [matrixBot.handleCommand, h1, if_false, if_true, matrixBot.handleCreateCommand,
    matrixBot.sendCommandResponse]
  cases mb.oc.createRun a with
  | error e => simp [Effect.isRunOperation]
  | ok run =>
    dsimp only
    cases marshalIndent run <;> simp [Effect.isRunOperation]

theorem handleCommand_list (marshalIndent : Object → Except GoError String)
    (mb : matrixBot) (ev : Event) (a : String) :
    (mb.handleCommand marshalIndent ev "list" a).calls.filter Effect.isRunOperation =
      [Effect.listRuns] := by
  have h1 : ¬ ("list" = "help") := by decide
  have h2 : ¬ ("list" = "create") := by decide
  simp only [matrixBot.handleCommand, h1, h2, if_false, if_true, matrixBot.handleListCommand,
    matrixBot.sendCommandResponse]
  cases mb.oc.listRuns with
  | error e => simp [Effect.isRunOperation]
  | ok runs =>
    dsimp only
    cases runListToHtml runs <;> simp [Effect.isRunOperation]

theorem handleCommand_show (marshalIndent : Object → Except GoError String)
    (mb : matrixBot) (ev : Event) (a : String) :
    (mb.handleCommand marshalIndent ev "show" a).calls.filter Effect.isRunOperation =
      [Effect.getRun a] := by
  have h1 : ¬ ("show" = "help") := by decide
  have h2 : ¬ ("show" = "create") := by decide
  have h3 : ¬ ("show" = "list") := by decide
  simp only [matrixBot.handleCommand, h1, h2, h3, if_false, if_true,
    matrixBot.handleShowCommand, matrixBot.sendCommandResponse]
  cases mb.oc.getRun a with
  | error e => simp [Effect.isRunOperation]
  | ok run =>
    dsimp only
    cases marshalIndent run <;> simp [Effect.isRunOperation]

/-- C9: for every bot, event and argument, `handleCommand` answers `help` with
the static help text and no run operation, makes exactly one `createRun(a)` for
`create`, exactly one `listRuns` for `list`, exactly one `getRun(a)` for `show`,
and for any other token makes no run operation and answers with an
unknown-command notice quoting the token.  For a bot whose handle is `@bot`,
through `handleMessage` the body
`@bot create https://example.com/repo` leads to
`createRun("https://example.com/repo")`, and `@bot bogus` to no run operation
and a notice naming `bogus`. -/
theorem handleCommand_table (marshalIndent : Object → Except GoError String)
    (mb : matrixBot) (ev : Event) (a : String) :
    mb.handleCommand marshalIndent ev "help" a =
      ⟨[Effect.SendText ev.RoomID (ev.Sender ++ " " ++ chatbotHelpText)], false⟩ ∧
    (mb.handleCommand marshalIndent ev "create" a).calls.filter Effect.isRunOperation =
      [Effect.createRun a] ∧
    (mb.handleCommand marshalIndent ev "list" a).calls.filter Effect.isRunOperation =
      [Effect.listRuns] ∧
    (mb.handleCommand marshalIndent ev "show" a).calls.filter Effect.isRunOperation =
      [Effect.getRun a] ∧
    (∀ c, c ∉ ["help", "create", "list", "show"] →
      mb.handleCommand marshalIndent ev c a =
        ⟨[Effect.SendText ev.RoomID
            (ev.Sender ++ " " ++
              ("unknown command '" ++ c ++ "'. Use 'help' to list all available commands"))],
          false⟩) ∧
    ((strings.CutSuffix mb.UserID (":" ++ mb.Host)).1 = "@bot" →
      (mb.handleMessage marshalIndent
          { ev with Body := some "@bot create https://example.com/repo" }).calls.filter
            Effect.isRunOperation =
        [Effect.createRun "https://example.com/repo"] ∧
      mb.handleMessage marshalIndent { ev with Body := some "@bot bogus" } =
        ⟨[Effect.SendText ev.RoomID
            (ev.Sender ++ " " ++
              "unknown command 'bogus'. Use 'help' to list all available commands")],
          false⟩) := by
  refine ⟨?_, handleCommand_create marshalIndent mb ev a, handleCommand_list marshalIndent mb ev a,
    handleCommand_show marshalIndent mb ev a,
    fun c hc => handleCommand_unknown marshalIndent mb ev c a hc, fun hh => ⟨?_, ?_⟩⟩
  · simp [matrixBot.handleCommand, matrixBot.sendCommandResponse]
  · have h := handleMessage_dispatched marshalIndent mb
      { ev with Body := some "@bot create https://example.com/repo" } "@bot"
      " create https://example.com/repo" rfl hh
    have h1 : strings.TrimSpace (String.mk ((strings.TrimSpace
        " create https://example.com/repo").data.takeWhile (fun x => x != ' '))) = "create" := by
      decide
    have h2 : strings.TrimSpace (String.mk (((strings.TrimSpace
        " create https://example.com/repo").data.dropWhile (fun x => x != ' ')).drop 1)) =
        "https://example.com/repo" := by
      decide
    rw [h, h1, h2]
    exact handleCommand_create marshalIndent mb _ _
  · have h := handleMessage_dispatched marshalIndent mb
      { ev with Body := some "@bot bogus" } "@bot" " bogus" rfl hh
    have h1 : strings.TrimSpace (String.mk ((strings.TrimSpace
        " bogus").data.takeWhile (fun x => x != ' '))) = "bogus" := by
      decide
    have h2 : strings.TrimSpace (String.mk (((strings.TrimSpace
        " bogus").data.dropWhile (fun x => x != ' ')).drop 1)) = "" := by
      decide
    rw [h, h1, h2]
    exact handleCommand_unknown marshalIndent mb _ "bogus" "" (by decide)

/-- The sample bot, addressed as `@bot` by `@alice`: `create` reaches
`createRun` with the URL and `bogus` only draws the notice; a bot with the
handle `@ort` dispatches the same tokens the same way. -/
theorem handleCommand_table_witness :
    ((sampleBot.handleMessage sampleJson
        (sampleEvent "@bot create https://example.com/repo")).calls.filter
          Effect.isRunOperation =
      [Effect.createRun "https://example.com/repo"] ∧
    sampleBot.handleMessage sampleJson (sampleEvent "@bot bogus") =
      ⟨[Effect.SendText "!room"
          "@alice unknown command 'bogus'. Use 'help' to list all available commands"],
        false⟩) ∧
    (sampleOtherBot.handleCommand sampleJson (sampleEvent "") "create"
        "https://example.com/repo").calls.filter Effect.isRunOperation =
      [Effect.createRun "https://example.com/repo"] ∧
    sampleOtherBot.handleCommand sampleJson (sampleEvent "") "bogus" "" =
      ⟨[Effect.SendText "!room"
          ("@alice" ++ " " ++
            ("unknown command '" ++ "bogus" ++
              "'. Use 'help' to list all available commands"))],
        false⟩ :=
  ⟨(handleCommand_table sampleJson sampleBot (sampleEvent "") "").2.2.2.2.2 (by decide),
   (handleCommand_table sampleJson sampleOtherBot (sampleEvent "")
      "https://example.com/repo").2.1,
   (handleCommand_table sampleJson sampleOtherBot (sampleEvent "") "").2.2.2.2.1 "bogus"
      (by decide)⟩

/-- C13: on the five statuses `stageStatusFromString` undoes `String`, and
`String` takes different values on different statuses; on any other value of
the integer type `String` is "Unknown", which `stageStatusFromString` reads as
`Pending`. -/
theorem stageStatus_String_roundtrip (s : StageStatus) :
    (s ∈ [Pending, Running, Succeeded, Failed, Aborted] →
      stageStatusFromString s.String = s) ∧
    (∀ t, s ∈ [Pending, Running, Succeeded, Failed, Aborted] →
      t ∈ [Pending, Running, Succeeded, Failed, Aborted] → s.String = t.String → s = t) ∧
    (s ∉ [Pending, Running, Succeeded, Failed, Aborted] →
      s.String = "Unknown" ∧ stageStatusFromString s.String = Pending) := by
  refine ⟨?_, ?_, ?_⟩
  · intro hs
    simp only [List.mem_cons, List.mem_singleton, List.not_mem_nil, or_false] at hs
    rcases hs with rfl | rfl | rfl | rfl | rfl <;> decide
  · intro t hs ht
    simp only [List.mem_cons, List.mem_singleton, List.not_mem_nil, or_false] at hs ht
    rcases hs with rfl | rfl | rfl | rfl | rfl <;>
      rcases ht with rfl | rfl | rfl | rfl | rfl <;> decide
  · intro hs
    simp only [List.mem_cons, List.mem_singleton, List.not_mem_nil, or_false, not_or] at hs
    have h : s.String = "Unknown" := by
      simp [StageStatus.String, hs.1, hs.2.1, hs.2.2.1, hs.2.2.2.1, hs.2.2.2.2]
    exact ⟨h, by rw [h]; decide⟩

/-- The status `Failed` survives the round trip, and the value 7 of the integer
type prints as "Unknown" and reads back as `Pending`. -/
theorem stageStatus_String_roundtrip_witness :
    stageStatusFromString Failed.String = Failed ∧
    (StageStatus.mk 7).String = "Unknown" ∧
    stageStatusFromString (StageStatus.mk 7).String = Pending :=
  ⟨(stageStatus_String_roundtrip Failed).1 (by decide),
   ((stageStatus_String_roundtrip (StageStatus.mk 7)).2.2 (by decide)).1,
   ((stageStatus_String_roundtrip (StageStatus.mk 7)).2.2 (by decide)).2⟩

/-- C12: when run name `r1` is a prefix of run name `r2`, every pod `listPods`
returns for `(r2, stage)` is also returned for `(r1, stage)`, in the same order;
so with runs `foo` and `foo-bar` and stage `scan`, the pod `scan-foo-bar-xyz` of
run `foo-bar` is also returned for run `foo`. -/
theorem listPods_prefix_runs (oc : ortController) (items : List Pod) (stage r1 r2 : String)
    (h : oc.pods = Except.ok items) (hp : ∃ t, r2 = r1 ++ t) :
    (∃ p1 p2, oc.listPods r1 stage = Result.ok p1 ∧ oc.listPods r2 stage = Result.ok p2 ∧
      (∀ pod ∈ p2, pod ∈ p1) ∧ p2.Sublist p1) ∧
    sampleScanController.listPods "foo-bar" "scan" = Result.ok [⟨"scan-foo-bar-xyz", "u1"⟩] ∧
    sampleScanController.listPods "foo" "scan" =
      Result.ok [⟨"scan-foo-bar-xyz", "u1"⟩, ⟨"scan-foo-abc", "u2"⟩] := by
  refine ⟨?_, by decide, by decide⟩
  obtain ⟨t, rfl⟩ := hp
  have himp : ∀ pod : Pod, strings.HasPrefix pod.Name (stage ++ "-" ++ (r1 ++ t)) = true →
      strings.HasPrefix pod.Name (stage ++ "-" ++ r1) = true := by
    intro pod hpod
    rw [HasPrefix_iff] at hpod ⊢
    refine List.IsPrefix.trans ⟨t.data, ?_⟩ hpod
    simp [String.data_append]
  refine ⟨items.filter (fun pod => strings.HasPrefix pod.Name (stage ++ "-" ++ r1)),
    items.filter (fun pod => strings.HasPrefix pod.Name (stage ++ "-" ++ (r1 ++ t))),
    by simp only [ortController.listPods, h, listPods_loop, List.nil_append],
    by simp only [ortController.listPods, h, listPods_loop, List.nil_append], ?_, ?_⟩
  · intro pod hpod
    rw [List.mem_filter] at hpod ⊢
    exact ⟨hpod.1, himp pod hpod.2⟩
  · exact List.monotone_filter_right items himp

/-- In the sample cluster the pods returned for run `foo-bar` are among those
returned for run `foo`. -/
theorem listPods_prefix_runs_witness :
    ∃ p1 p2, sampleScanController.listPods "foo" "scan" = Result.ok p1 ∧
      sampleScanController.listPods "foo-bar" "scan" = Result.ok p2 ∧
      (∀ pod ∈ p2, pod ∈ p1) ∧ p2.Sublist p1 :=
  (listPods_prefix_runs sampleScanController
    [⟨"scan-foo-bar-xyz", "u1"⟩, ⟨"scan-foo-abc", "u2"⟩] "scan" "foo" "foo-bar" rfl
    ⟨"-bar", by decide⟩).1

theorem lookup_filter_ne (k k' : String) :
    ∀ l : Object, k ≠ k' →
      List.lookup k (l.filter (fun kv => decide (kv.1 ≠ k'))) = List.lookup k l := by
  intro l hk
  induction l with
  | nil => rfl
  | cons kv rest ih =>
    obtain ⟨a, v⟩ := kv
    by_cases ha : a = k'
    · subst ha
      have hka : (k == a) = false := by simpa using hk
      simp only [List.filter_cons, ne_eq, not_true_eq_false, decide_False, Bool.false_eq_true,
        if_false, List.lookup_cons, hka]
      exact ih
    · by_cases hka : k = a
      · subst hka
        simp only [List.filter_cons, ne_eq, ha, not_false_eq_true, decide_True, if_true,
          List.lookup_cons, beq_self_eq_true]
      · have hka' : (k == a) = false := by simpa using hka
        simp only [List.filter_cons, ne_eq, ha, not_false_eq_true, decide_True, if_true,
          List.lookup_cons, hka']
        exact ih

theorem lookup_entries (k : String) :
    ∀ m : Object, List.lookup k (unstructured.entries m) = List.lookup k m := by
  intro m
  induction m with
  | nil => rfl
  | cons kv rest ih =>
    obtain ⟨a, v⟩ := kv
    by_cases hka : k = a
    · subst hka
      simp [unstructured.entries, List.lookup_cons]
    · have hka' : (k == a) = false := by simpa using hka
      simp only [unstructured.entries, List.lookup_cons, hka']
      rw [lookup_filter_ne k a _ hka, ih]

theorem entries_subset : ∀ (m : Object) (kv : String × Value),
    kv ∈ unstructured.entries m → kv ∈ m := by
  intro m
  induction m with
  | nil => intro kv h; exact h
  | cons x rest ih =>
    intro kv h
    obtain ⟨a, v⟩ := x
    simp only [unstructured.entries, List.mem_cons, List.mem_filter] at h
    rcases h with h | ⟨h, -⟩
    · exact h ▸ List.mem_cons_self _ _
    · exact List.mem_cons_of_mem _ (ih kv h)

theorem stringMapIndex_filterMap (k : String) :
    ∀ l : Object, (∀ kv ∈ l, ∃ s, kv.2 = Value.str s) →
      stringMapIndex (l.filterMap (fun kv => kv.2.asString?.map (fun s => (kv.1, s)))) k =
        stringAt l k := by
  intro l
  induction l with
  | nil => intro _; rfl
  | cons kv rest ih =>
    intro h
    obtain ⟨a, v⟩ := kv
    obtain ⟨s, hs⟩ := h (a, v) (List.mem_cons_self _ _)
    simp only at hs
    subst hs
    have ih' := ih (fun kv hkv => h kv (List.mem_cons_of_mem _ hkv))
    by_cases hka : k = a
    · subst hka
      simp [stringMapIndex, stringAt, List.filterMap_cons, Value.asString?, List.lookup_cons]
    · have hka' : (k == a) = false := by simpa using hka
      simp only [stringMapIndex, stringAt, List.filterMap_cons, Value.asString?, Option.map_some',
        List.lookup_cons, hka'] at ih' ⊢
      exact ih'

theorem NestedMap_of_map (item : Object) (sect : String) (m : Object)
    (h : item.lookup sect = some (Value.map m)) :
    unstructured.NestedMap item [sect] = (m, true, none) := by
  simp [unstructured.NestedMap, unstructured.NestedFieldNoCopy,
    unstructured.NestedFieldNoCopy.loop, h, Value.asMap?]

theorem NestedStringMap_of_strings (item : Object) (sect : String) (m : Object)
    (h : item.lookup sect = some (Value.map m))
    (hall : ∀ kv ∈ m, ∃ s, kv.2 = Value.str s) :
    unstructured.NestedStringMap item [sect] =
      ((unstructured.entries m).filterMap
        (fun kv => kv.2.asString?.map (fun s => (kv.1, s))), true, none) := by
  have hstr : (unstructured.entries m).all (fun kv => kv.2.asString?.isSome) = true := by
    rw [List.all_eq_true]
    intro kv hkv
    obtain ⟨s, hs⟩ := hall kv (entries_subset m kv hkv)
    simp [hs, Value.asString?]
  simp only [unstructured.NestedStringMap, NestedMap_of_map item sect m h, hstr, if_true]

theorem parseRunList_item_no_status (item : Object) (parsedRuns : List ortRunMeta)
    (h : item.lookup "status" = none) :
    parseRunList.item item parsedRuns = Result.ok parsedRuns := by
  simp [parseRunList.item, unstructured.NestedStringMap, unstructured.NestedMap,
    unstructured.NestedFieldNoCopy, unstructured.NestedFieldNoCopy.loop, h]

theorem parseRunList_item_included (item st md sp : Object) (name : String)
    (parsedRuns : List ortRunMeta)
    (hst : item.lookup "status" = some (Value.map st))
    (hstAll : ∀ kv ∈ st, ∃ s, kv.2 = Value.str s)
    (hmd : item.lookup "metadata" = some (Value.map md))
    (hname : md.lookup "name" = some (Value.str name))
    (hsp : item.lookup "spec" = some (Value.map sp))
    (hspAll : ∀ kv ∈ sp, ∃ s, kv.2 = Value.str s) :
    parseRunList.item item parsedRuns =
      Result.ok (parsedRuns ++
        [{ name := name, repoUrl := stringAt sp "repoUrl",
           analyzerStatus := stringAt st "analyzer", scannerStatus := stringAt st "scanner",
           reporterStatus := stringAt st "reporter" }]) := by
  have hentries : ∀ (m : Object) (k : String), (∀ kv ∈ m, ∃ s, kv.2 = Value.str s) →
      stringMapIndex ((unstructured.entries m).filterMap
        (fun kv => kv.2.asString?.map (fun s => (kv.1, s)))) k = stringAt m k := by
    intro m k hm
    rw [stringMapIndex_filterMap k _ (fun kv hkv => hm kv (entries_subset m kv hkv))]
    simp only [stringAt, lookup_entries]
  have hn : (md.index "name").asString? = some name := by
    simp only [index_eq_of_lookup hname, Value.asString?]
  simp only [parseRunList.item, NestedStringMap_of_strings item "status" st hst hstAll,
    NestedMap_of_map item "metadata" md hmd,
    NestedStringMap_of_strings item "spec" sp hsp hspAll,
    hn, hentries st _ hstAll, hentries sp _ hspAll]

theorem parseRunList_loop_filter :
    ∀ (runs : List Object) (parsedRuns : List ortRunMeta),
      parseRunList.loop runs parsedRuns =
        parseRunList.loop (runs.filter (fun item => (item.lookup "status").isSome))
          parsedRuns := by
  intro runs
  induction runs with
  | nil => intro _; rfl
  | cons item rest ih =>
    intro parsedRuns
    cases hst : List.lookup "status" item with
    | none =>
      simp only [List.filter_cons, hst, Option.isSome_none, Bool.false_eq_true, if_false]
      rw [← ih]
      simp only [parseRunList.loop, parseRunList_item_no_status item parsedRuns hst]
    | some v =>
      simp only [List.filter_cons, hst, Option.isSome_some, if_true, parseRunList.loop]
      cases parseRunList.item item parsedRuns with
      | ok acc => exact ih acc
      | err v e => rfl
      | panic => rfl

/-- Items without a status section contribute nothing to `parseRunList`: the
result is that of the list without them. -/
theorem parseRunList_skips_without_status (runs : List Object) :
    parseRunList runs =
      parseRunList (runs.filter (fun item => (item.lookup "status").isSome)) :=
  parseRunList_loop_filter runs []

/-- At any place of the list, an item whose status and spec sections are maps of
strings and whose metadata has a string name adds one entry, holding the stage
strings as they are stored. -/
theorem parseRunList_loop_included (item st md sp : Object) (name : String)
    (rest : List Object) (parsedRuns : List ortRunMeta)
    (hst : item.lookup "status" = some (Value.map st))
    (hstAll : ∀ kv ∈ st, ∃ s, kv.2 = Value.str s)
    (hmd : item.lookup "metadata" = some (Value.map md))
    (hname : md.lookup "name" = some (Value.str name))
    (hsp : item.lookup "spec" = some (Value.map sp))
    (hspAll : ∀ kv ∈ sp, ∃ s, kv.2 = Value.str s) :
    parseRunList.loop (item :: rest) parsedRuns =
      parseRunList.loop rest (parsedRuns ++
        [{ name := name, repoUrl := stringAt sp "repoUrl",
           analyzerStatus := stringAt st "analyzer", scannerStatus := stringAt st "scanner",
           reporterStatus := stringAt st "reporter" }]) := by
  simp only [parseRunList.loop,
    parseRunList_item_included item st md sp name parsedRuns hst hstAll hmd hname hsp hspAll]

/-- C11 fails on the code: the run `createRun` has just built has a string name,
a string repository URL and no status section, and `parseRunList` leaves it out
instead of listing it with `Pending` stages. The table of `runListToHtml` and the
answer of the bot to `list` then hold the header row only, also when other runs
are listed; the help text announces `list` as listing all runs, and the HTTP
translator `unstructuredListToOrtRunList` does keep the run, with three `Pending`
stages. -/
theorem parseRunList_drops_fresh_run :
    sampleFresh = ortController.newRun "brave-lion" "https://example.com/repo" ∧
    fieldIs sampleFresh "metadata" "name" "brave-lion" ∧
    fieldIs sampleFresh "spec" "repoUrl" "https://example.com/repo" ∧
    sampleFresh.lookup "status" = none ∧
    parseRunList [sampleFresh] = Result.ok [] ∧
    runListToHtml [sampleFresh] =
      Result.ok ("<table><tr><th>Name</th><th>Scanned Repository</th><th>Analyzer Status</th>" ++
        "<th>Scanner Status</th><th>Reporter Status</th><th>Report URL</th></tr></table>") ∧
    sampleFreshBot.handleMessage sampleJson (sampleEvent "@bot list") =
      ⟨[Effect.listRuns,
        Effect.SendFormattedText "!room" ""
          ("@alice <table><tr><th>Name</th><th>Scanned Repository</th>" ++
            "<th>Analyzer Status</th><th>Scanner Status</th><th>Reporter Status</th>" ++
            "<th>Report URL</th></tr></table>")],
        false⟩ ∧
    parseRunList [sampleFresh, sampleAnalyzing] =
      Result.ok [{ name := "calm-otter", repoUrl := "https://example.com/other",
                   analyzerStatus := "Running", scannerStatus := "", reporterStatus := "" }] ∧
    chatbotHelpText =
      "\ncreate <repoURL> - Create an OrtRun resource with repoURL\n" ++
        "list - List all OrtRun resources" ++
        "\nshow <name> - Show the nitty gritty of an OrtRun" ∧
    unstructuredListToOrtRunList sampleYaml [sampleFresh] =
      Result.ok ⟨[{ Name := "brave-lion", RepoUrl := "https://example.com/repo",
                    Status := ⟨Pending, Pending, Pending⟩, KubernetesResource := "" }]⟩ :=
  ⟨rfl, ⟨_, rfl, rfl⟩, ⟨_, rfl, rfl⟩, rfl, by decide, by decide, by decide, by decide,
    by decide, by decide⟩

end OrtOperator
